import Mathlib

/-!
Shallow embedding of the `envflagparser` Go package (erikborsos/envflagparser).

The package reads configuration into a flat struct from two sources: process
environment variables and command-line flags.  Field metadata carries an `env`
tag (environment key) and a `flag` tag of the form `name;default;usage`.

The embedding models Go strings as `List Char`, the reflection-level scalar
values the package handles as the inductive `GoValue`, the process-global flag
registry (`flag.CommandLine`) as an association list threaded through calls,
and panics/recover as an explicit result constructor that the top-level
`ParseConfig` converts into returned errors, mirroring the deferred `recover`.

Go standard-library leaves (`strconv.ParseInt`, `strconv.ParseBool`,
`strconv.ParseFloat`, `time.ParseDuration`, the formatting functions, and the
`flag` package's argument scanner) are modelled below as executable Lean
functions; deviations from the stdlib are noted in the corresponding doc
comments.
-/

namespace EnvFlag

/-- Go strings, modelled as lists of characters. -/
abbrev GoStr := List Char

/-- Coerce a Lean string literal to the `GoStr` model. -/
def gs (s : String) : GoStr := s.toList

/-! ## Decimal digits: shared core of the `strconv` models -/

/-- The character for a single decimal digit (`'0'`-`'9'` for `d < 10`). -/
def digitToChar (d : Nat) : Char := Char.ofNat (48 + d)

/-- Decode a decimal digit character; `none` for non-digits. -/
def charToDigit (c : Char) : Option Nat :=
  if 48 ≤ c.toNat ∧ c.toNat ≤ 57 then some (c.toNat - 48) else none

/-- Whether a character is a decimal digit. -/
def isDigitChar (c : Char) : Bool := decide (48 ≤ c.toNat ∧ c.toNat ≤ 57)

/-- Big-endian digit-list value: `digitsVal acc ds` folds `ds` onto `acc`. -/
def digitsVal : Nat → List Nat → Nat
  | acc, [] => acc
  | acc, d :: ds => digitsVal (acc * 10 + d) ds

/-- Fuelled little-endian digit extraction (`fuel ≥ n` gives the true digits). -/
def natDigitsRevGo : Nat → Nat → List Nat
  | 0, n => [n % 10]
  | fuel + 1, n => if n < 10 then [n] else n % 10 :: natDigitsRevGo fuel (n / 10)

/-- Little-endian decimal digits of `n` (least significant first). -/
def natDigitsRev (n : Nat) : List Nat := natDigitsRevGo n n

/-- Decimal rendering of a natural number, as produced by `strconv.Itoa`
and `strconv.FormatUint` for base 10. -/
def formatNat (n : Nat) : GoStr := (natDigitsRev n).reverse.map digitToChar

/-- Scan a maximal run of leading decimal digits, returning the accumulated
value, the number of digits consumed and the remaining characters.  This is
the digit-consuming loop shared by the `strconv` and `time.ParseDuration`
models. -/
def scanDigits : GoStr → Nat → Nat → Nat × Nat × GoStr
  | [], acc, k => (acc, k, [])
  | c :: cs, acc, k =>
    if isDigitChar c then scanDigits cs (acc * 10 + (c.toNat - 48)) (k + 1)
    else (acc, k, c :: cs)

/-- A character list that does not begin with a decimal digit. -/
def NoDigitStart (l : GoStr) : Prop := ∀ c, l.head? = some c → isDigitChar c = false

/-! ## `strconv` integer, boolean models -/

/-- Model of `strconv.ParseUint(s, 10, 64)`: all characters must be decimal
digits, at least one digit, value below `2^64`.  (Underscore separators and
non-decimal bases do not apply at base 10.) -/
def parseUint64 (l : GoStr) : Option Nat :=
  match scanDigits l 0 0 with
  | (v, k, rest) => if k = 0 ∨ rest ≠ [] ∨ 2 ^ 64 ≤ v then none else some v

/-- Digit-and-range step of the `strconv.ParseInt` model, after the sign has
been stripped; `neg` records a leading minus. -/
def parseIntDigits (neg : Bool) (r : GoStr) : Option Int :=
  match scanDigits r 0 0 with
  | (v, k, rest) =>
    if k = 0 ∨ rest ≠ [] then none
    else if neg then
      if 2 ^ 63 < v then none else some (-(v : Int))
    else
      if 2 ^ 63 ≤ v then none else some (v : Int)

/-- Model of `strconv.ParseInt(s, 10, 64)` — also `strconv.Atoi` on a 64-bit
platform: optional sign, decimal digits, result within the `int64` range. -/
def parseInt64 : GoStr → Option Int
  | [] => none
  | c :: r =>
    if c = '-' then parseIntDigits true r
    else if c = '+' then parseIntDigits false r
    else parseIntDigits false (c :: r)

/-- Model of `strconv.Itoa` / `strconv.FormatInt(i, 10)`. -/
def formatInt (i : Int) : GoStr :=
  if i < 0 then '-' :: formatNat i.natAbs else formatNat i.natAbs

/-- Model of `strconv.ParseBool`: the exact twelve accepted tokens. -/
def parseBool (l : GoStr) : Option Bool :=
  if l = gs "1" ∨ l = gs "t" ∨ l = gs "T" ∨ l = gs "true" ∨ l = gs "TRUE" ∨ l = gs "True"
    then some true
  else if l = gs "0" ∨ l = gs "f" ∨ l = gs "F" ∨ l = gs "false" ∨ l = gs "FALSE" ∨ l = gs "False"
    then some false
  else none

/-- Model of `strconv.FormatBool`. -/
def formatBool (b : Bool) : GoStr := if b then gs "true" else gs "false"

/-! ## `strconv` float model -/

/-- Model of a Go `float64` as an exact decimal `m / 10 ^ e`.  IEEE-754 binary
rounding is abstracted away: `strconv.ParseFloat` is modelled as exact decimal
reading, and `strconv.FormatFloat(f, 'f', -1, 64)` as an exact decimal
rendering (`-1` asks for the shortest digit string that reads back to the same
value; for the exact-decimal model the plain rendering below reads back
exactly, without the trailing-zero trimming, which only changes the
intermediate string, never the value read back from it). -/
structure FloatVal where
  m : Int
  e : Nat
deriving DecidableEq

/-- Fold a decimal exponent `p` (negated if `negp`) into `m0 / 10 ^ e0`. -/
def applyExp (m0 : Int) (e0 : Nat) (negp : Bool) (p : Nat) : FloatVal :=
  if negp then ⟨m0, e0 + p⟩
  else if e0 ≤ p then ⟨m0 * (10 : Int) ^ (p - e0), 0⟩ else ⟨m0, e0 - p⟩

/-- Exponent-suffix step of the `strconv.ParseFloat` model: after the digits,
the remainder may be empty or an `e`/`E` exponent part. -/
def parseFloatTail (m0 : Int) (e0 : Nat) : GoStr → Option FloatVal
  | [] => some ⟨m0, e0⟩
  | c :: r =>
    if c = 'e' ∨ c = 'E' then
      match r with
      | [] => none
      | c2 :: r2 =>
        (match (if c2 = '-' then (true, r2)
                else if c2 = '+' then (false, r2) else (false, c2 :: r2) : Bool × GoStr) with
         | (negp, r3) =>
           match scanDigits r3 0 0 with
           | (p, k, rest) => if k = 0 ∨ rest ≠ [] then none else some (applyExp m0 e0 negp p))
    else none

/-- Digits-and-fraction step of the `strconv.ParseFloat` model, after the
sign has been stripped; `neg` records a leading minus. -/
def parseFloatBody (neg : Bool) (r : GoStr) : Option FloatVal :=
  match scanDigits r 0 0 with
  | (iv, ik, l2) =>
    match l2 with
    | '.' :: r2 =>
      (match scanDigits r2 0 0 with
       | (fv, fk, l3) =>
         if ik = 0 ∧ fk = 0 then none
         else parseFloatTail (if neg then -(iv * 10 ^ fk + fv : Int) else iv * 10 ^ fk + fv) fk l3)
    | _ => if ik = 0 then none else parseFloatTail (if neg then -(iv : Int) else (iv : Int)) 0 l2

/-- Model of `strconv.ParseFloat(s, 64)` restricted to decimal syntax (hex
floats, `Inf` and `NaN` are omitted; none of them can occur on the paths the
claims exercise). -/
def parseFloat : GoStr → Option FloatVal
  | [] => none
  | c :: r =>
    if c = '-' then parseFloatBody true r
    else if c = '+' then parseFloatBody false r
    else parseFloatBody false (c :: r)

/-- Left-pad with `'0'` to length `k`. -/
def padZeros (k : Nat) (l : GoStr) : GoStr := List.replicate (k - l.length) '0' ++ l

/-- Model of `strconv.FormatFloat(f, 'f', -1, 64)` on the exact-decimal model
(see `FloatVal`). -/
def formatFloat (f : FloatVal) : GoStr :=
  let sign : GoStr := if f.m < 0 then ['-'] else []
  if f.e = 0 then sign ++ formatNat f.m.natAbs
  else sign ++ formatNat (f.m.natAbs / 10 ^ f.e) ++
    '.' :: padZeros f.e (formatNat (f.m.natAbs % 10 ^ f.e))

/-! ## `time.ParseDuration` model -/

/-- Nanoseconds per unit, for the unit suffixes `time.ParseDuration` accepts. -/
def unitNs (u : GoStr) : Option Nat :=
  if u = gs "ns" then some 1
  else if u = gs "us" then some 1000
  else if u = gs "µs" then some 1000
  else if u = gs "μs" then some 1000
  else if u = gs "ms" then some 1000000
  else if u = gs "s" then some 1000000000
  else if u = gs "m" then some 60000000000
  else if u = gs "h" then some 3600000000000
  else none

/-- Take the unit suffix of a duration component: the run of characters up to
the next digit or dot, mirroring the unit scan in `time.ParseDuration`. -/
def takeUnit : GoStr → GoStr × GoStr
  | [] => ([], [])
  | c :: cs =>
    if isDigitChar c ∨ c = '.' then ([], c :: cs)
    else
      match takeUnit cs with
      | (u, rest) => (c :: u, rest)

/-- Component loop of the `time.ParseDuration` model: each iteration reads
`digits [ '.' digits ] unit` and accumulates nanoseconds.  Go accumulates the
fractional part in a `float64`; the model uses exact arithmetic truncated at
the same nanosecond boundary (`fv * un / 10 ^ fk`). -/
def durComponents : Nat → GoStr → Nat → Option Nat
  | 0, _, _ => none
  | _ + 1, [], acc => some acc
  | fuel + 1, c :: cs, acc =>
    match scanDigits (c :: cs) 0 0 with
    | (iv, ik, l2) =>
      if l2.head? = some '.' then
        match scanDigits l2.tail 0 0 with
        | (fv, fk, l3) =>
          if ik = 0 ∧ fk = 0 then none
          else
            match takeUnit l3 with
            | (u, l4) =>
              match unitNs u with
              | none => none
              | some un => durComponents fuel l4 (acc + iv * un + fv * un / 10 ^ fk)
      else
        if ik = 0 then none
        else
          match takeUnit l2 with
          | (u, l4) =>
            match unitNs u with
            | none => none
            | some un => durComponents fuel l4 (acc + iv * un)

/-- Sign-stripped part of the `time.ParseDuration` model: the special case
`"0"`, then one or more components; the total must fit in `int64` (Go refuses
anything above `1<<63 - 1` nanoseconds in magnitude). -/
def parseDurationBody (neg : Bool) (l1 : GoStr) : Option Int :=
  if l1 = gs "0" then some 0
  else if l1 = [] then none
  else
    match durComponents (l1.length + 1) l1 0 with
    | none => none
    | some n =>
      if 2 ^ 63 - 1 < n then none else some (if neg then -(n : Int) else (n : Int))

/-- Model of `time.ParseDuration`: optional single sign, then the body. -/
def parseDuration : GoStr → Option Int
  | [] => none
  | c :: r =>
    if c = '-' then parseDurationBody true r
    else if c = '+' then parseDurationBody false r
    else parseDurationBody false (c :: r)

/-- Parse-equivalent model of `(time.Duration).String`: renders `d` as its
exact nanosecond count with the `ns` unit.  Go renders the same value with
larger units and fractions (e.g. `"1m30s"`); both renderings read back to `d`
under `time.ParseDuration`, and in this package the rendered string is only an
internal intermediate that is immediately re-parsed. -/
def formatDurationNs (d : Int) : GoStr := formatInt d ++ gs "ns"

/-! ## The envflagparser data model -/

/-- The reflection-level scalar values the package dispatches on.  `vdur`
stands for an `int64` whose Go type is `time.Duration` (the
`field.Type() == reflect.TypeOf(time.Duration(0))` test inside the
`reflect.Int, reflect.Int64` case of `setValue`/`getFlagSetValue`);
`vunsupported` stands for every other kind (struct, slice, map, pointer, …),
carrying only whether the current value is the zero value of its type, which
is all the switches in the source can observe of it. -/
inductive GoValue where
  | vint (i : Int)
  | vint64 (i : Int)
  | vdur (ns : Int)
  | vuint (n : Nat)
  | vuint64 (n : Nat)
  | vfloat (f : FloatVal)
  | vstr (s : GoStr)
  | vbool (b : Bool)
  | vunsupported (zero : Bool)
deriving DecidableEq

/-- Model of `reflect.Value.IsZero` on the modelled kinds. -/
def GoValue.isZero : GoValue → Bool
  | .vint i => i = 0
  | .vint64 i => i = 0
  | .vdur ns => ns = 0
  | .vuint n => n = 0
  | .vuint64 n => n = 0
  | .vfloat f => f.m = 0
  | .vstr s => s = []
  | .vbool b => b = false
  | .vunsupported z => z

/-- Kind tags, for stating kind-preservation facts. -/
inductive GoKind where
  | kint
  | kint64
  | kdur
  | kuint
  | kuint64
  | kfloat
  | kstr
  | kbool
  | kunsup
deriving DecidableEq

/-- The kind of a value. -/
def GoValue.kind : GoValue → GoKind
  | .vint _ => .kint
  | .vint64 _ => .kint64
  | .vdur _ => .kdur
  | .vuint _ => .kuint
  | .vuint64 _ => .kuint64
  | .vfloat _ => .kfloat
  | .vstr _ => .kstr
  | .vbool _ => .kbool
  | .vunsupported _ => .kunsup

/-- One struct field of the caller's record: its `env` tag, its `flag` tag
and its current reflect-level value (which also carries the field's type). -/
structure Field where
  envTag : GoStr
  flagTag : GoStr
  value : GoValue
deriving DecidableEq

/-- Flag-argument scanning errors of the `flag` package. -/
inductive FlagErr where
  | badSyntax (arg : GoStr)
  | unknownFlag (name : GoStr)
  | needsArg (name : GoStr)
  | badValue (value : GoStr) (name : GoStr)
  | helpRequested
deriving DecidableEq

/-- Causes of a Go panic inside `ParseConfig`: the out-of-range descriptor
access in `parseFlagArgs`, the `flag redefined` panic of `FlagSet.Var`, and
the `PanicOnError` abort of `FlagSet.Parse`. -/
inductive GoAbort where
  | indexOutOfRange
  | flagRedefined (name : GoStr)
  | flagParseFail (e : FlagErr)
deriving DecidableEq

/-- Error values `ParseConfig` can return: a conversion error from `strconv`
or `time` (carrying the offending text), the `unsupported flag value type`
error of `setFieldValueByFlagValue`, and a recovered panic (the deferred
handler formats it with `fmt.Errorf`). -/
inductive GoErr where
  | conv (value : GoStr)
  | unsupportedFlagValue
  | recovered (p : GoAbort)
deriving DecidableEq

/-- Result of a Go computation that may return an error or panic. -/
inductive GoResult (α : Type) where
  | ok (a : α)
  | error (e : GoErr)
  | panicked (p : GoAbort)
deriving DecidableEq

/-- Whether a result is a panic still unwinding the stack. -/
def GoResult.isPanic {α : Type} : GoResult α → Bool
  | .panicked _ => true
  | _ => false

/-! ## setValue and the descriptor parser -/

/-- Model of `setValue`: convert `value` per the field's kind and return the
new field value; `none` models the returned conversion error, in which case
the field keeps its old value — and both call sites in the source discard
this error.  Kinds without a case in the source's switch (`vunsupported`)
fall through and return `nil` without writing. -/
def setValue (field : GoValue) (value : GoStr) : Option GoValue :=
  match field with
  | .vint _ => (parseInt64 value).map .vint
  | .vint64 _ => (parseInt64 value).map .vint64
  | .vdur _ => (parseDuration value).map .vdur
  | .vuint _ => (parseUint64 value).map .vuint
  | .vuint64 _ => (parseUint64 value).map .vuint64
  | .vfloat _ => (parseFloat value).map .vfloat
  | .vstr _ => some (.vstr value)
  | .vbool _ => (parseBool value).map .vbool
  | .vunsupported z => some (.vunsupported z)

/-- Model of `strings.Split(s, ";")` (splitting on one character never yields
an empty list: the empty string splits to `[""]`). -/
def splitSemi : GoStr → List GoStr
  | [] => [[]]
  | c :: rest =>
    if c = ';' then [] :: splitSemi rest
    else
      match splitSemi rest with
      | [] => [[c]]
      | p :: ps => (c :: p) :: ps

/-- Model of `parseFlagArgs`: `strings.Split` on `";"` followed by fixed
indexing of `parts[0]`, `parts[1]`, `parts[2]`.  Fewer than three parts is an
out-of-range index — a runtime panic; the source has no part-count
validation.  (The `envKey` parameter of the source is unused and dropped.) -/
def parseFlagArgs (flagArgs : GoStr) : GoResult (GoStr × GoStr × GoStr) :=
  match splitSemi flagArgs with
  | a :: b :: c :: _ => .ok (a, b, c)
  | _ => .panicked .indexOutOfRange

/-- The flag name a field's tag declares: `strings.Split(tag, ";")[0]`,
total because a split is never empty. -/
def flagTagHead (f : Field) : GoStr := (splitSemi f.flagTag).headD []

/-- Model of `getFieldIndexByFlagName`: index of the first field whose flag
tag is nonempty and declares `name` (`-1` in Go, `none` here, when absent). -/
def getFieldIndexByFlagName : List Field → GoStr → Option Nat
  | [], _ => none
  | f :: rest, name =>
    if f.flagTag ≠ [] ∧ flagTagHead f = name then some 0
    else (getFieldIndexByFlagName rest name).map (· + 1)

/-! ## The process-global flag registry -/

/-- The process-global flag registry (`flag.CommandLine`): registered names
with their current typed values.  `flag.CommandLine.Init` in Go resets only
the set's name and error-handling mode, never this list. -/
abbrev FlagReg := List (GoStr × GoValue)

/-- Look up a registered flag by name. -/
def lookupFlag : FlagReg → GoStr → Option GoValue
  | [], _ => none
  | (n, v) :: rest, name => if n = name then some v else lookupFlag rest name

/-- Model of flag registration (`FlagSet.Var`): registering the same name a
second time panics with `flag redefined`. -/
def registerFlag (reg : FlagReg) (name : GoStr) (v : GoValue) : GoResult FlagReg :=
  match lookupFlag reg name with
  | some _ => .panicked (.flagRedefined name)
  | none => .ok (reg ++ [(name, v)])

/-- Overwrite the stored value of a registered flag (`flag.Value.Set`). -/
def setFlag : FlagReg → GoStr → GoValue → FlagReg
  | [], _, _ => []
  | (n, v) :: rest, name, nv =>
    if n = name then (n, nv) :: rest else (n, v) :: setFlag rest name nv

/-- The per-kind default-value conversion of `getFlagSetValue` (the
`strconv.Atoi` / `strconv.ParseBool` / `time.ParseDuration` / … call of each
switch arm, paired with the registered flag's type).  `none` for unsupported
kinds, which have no switch arm. -/
def defaultParsed (field : GoValue) (d : GoStr) : Option GoValue :=
  match field with
  | .vint _ => (parseInt64 d).map .vint
  | .vint64 _ => (parseInt64 d).map .vint64
  | .vdur _ => (parseDuration d).map .vdur
  | .vuint _ => (parseUint64 d).map .vuint
  | .vuint64 _ => (parseUint64 d).map .vuint64
  | .vfloat _ => (parseFloat d).map .vfloat
  | .vstr _ => some (.vstr d)
  | .vbool _ => (parseBool d).map .vbool
  | .vunsupported _ => none

/-- Model of `getFlagSetValue`: each switch arm parses the textual default
for its kind (a failure is returned to the caller — the `DefaultValueError`
of the spec, carrying the offending text) and registers a typed flag (which
panics on a duplicate name); the returned `Bool` says whether a flag pointer
was produced — `false` models the `nil, nil` fall-through for kinds without a
switch arm.  Usage text affects no observable behavior and is dropped. -/
def getFlagSetValue (field : GoValue) (flagName defaultValue : GoStr) (reg : FlagReg) :
    GoResult (FlagReg × Bool) :=
  match field with
  | .vunsupported _ => .ok (reg, false)
  | _ =>
    match defaultParsed field defaultValue with
    | none => .error (.conv defaultValue)
    | some dv =>
      match registerFlag reg flagName dv with
      | .ok reg2 => .ok (reg2, true)
      | .error e => .error e
      | .panicked p => .panicked p

/-- Model of `setFieldValueByFlagValue`: the dynamic-type switch over the
flag pointer, formatting the flag's value back to text and writing it through
`setValue` (whose error the source discards — the field keeps its old value
if the re-parse fails).  A `nil` pointer (`none`, produced for unsupported
kinds) matches no case and hits the `default` arm: the
`unsupported flag value type` error. -/
def setFieldValueByFlagValue (field : GoValue) (fv : Option GoValue) : GoResult GoValue :=
  match fv with
  | some (.vint i) => .ok ((setValue field (formatInt i)).getD field)
  | some (.vstr s) => .ok ((setValue field s).getD field)
  | some (.vbool b) => .ok ((setValue field (formatBool b)).getD field)
  | some (.vint64 i) => .ok ((setValue field (formatInt i)).getD field)
  | some (.vuint n) => .ok ((setValue field (formatNat n)).getD field)
  | some (.vuint64 n) => .ok ((setValue field (formatNat n)).getD field)
  | some (.vfloat f) => .ok ((setValue field (formatFloat f)).getD field)
  | some (.vdur ns) => .ok ((setValue field (formatDurationNs ns)).getD field)
  | _ => .error .unsupportedFlagValue

/-! ## The ParseConfig phases -/

/-- The first-pass environment write (lines 58-61 of the source): when the
environment variable exists, `setValue` is called and its returned error is
ignored — on a conversion failure the field silently keeps its old value. -/
def envApplied (env : GoStr → Option GoStr) (f : Field) : Field :=
  match env f.envTag with
  | some s => { f with value := (setValue f.value s).getD f.value }
  | none => f

/-- State accumulated by the field loop of `ParseConfig`: the (mutated)
fields processed so far, the `flagValues` map, and the flag registry. -/
structure P1State where
  fields : List Field
  flagVals : List (GoStr × Bool)
  reg : FlagReg
deriving DecidableEq

/-- Go map write `m[k] = v`: replace the entry if the key is present,
otherwise add it. -/
def mapSet : List (GoStr × Bool) → GoStr → Bool → List (GoStr × Bool)
  | [], k, v => [(k, v)]
  | (k0, v0) :: rest, k, v =>
    if k0 = k then (k, v) :: rest else (k0, v0) :: mapSet rest k v

/-- One iteration of the field loop of `ParseConfig` (lines 48-70):
descriptor parse (may panic), environment application (conversion error
discarded), flag registration (may fail or panic), and the
`flagValues[flagName] = flagSetValue` map write.  The map is iterated later
in Go's unspecified order; a successful run registers each name at most once
(a second registration panics first), and in the resolution loop distinct
keys touch disjoint fields, so insertion order stands in for it without loss. -/
def processField (env : GoStr → Option GoStr) (st : P1State) (f : Field) : GoResult P1State :=
  match parseFlagArgs f.flagTag with
  | .panicked p => .panicked p
  | .error e => .error e
  | .ok (flagName, defaultValue, _usage) =>
    match getFlagSetValue (envApplied env f).value flagName defaultValue st.reg with
    | .panicked p => .panicked p
    | .error e => .error e
    | .ok (reg2, ptr) =>
      .ok ⟨st.fields ++ [envApplied env f], mapSet st.flagVals flagName ptr, reg2⟩

/-- The field loop of `ParseConfig`, stopping at the first failure. -/
def phase1 (env : GoStr → Option GoStr) : P1State → List Field → GoResult P1State
  | st, [] => .ok st
  | st, f :: rest =>
    match processField env st f with
    | .ok st2 => phase1 env st2 rest
    | .error e => .error e
    | .panicked p => .panicked p

/-! ## The flag.Parse model -/

/-- Split an argument's `name=value` part at the first `=`. -/
def splitEq : GoStr → GoStr × Option GoStr
  | [] => ([], none)
  | c :: cs =>
    if c = '=' then ([], some cs)
    else
      match splitEq cs with
      | (n, v) => (c :: n, v)

/-- Model of `flag.Value.Set` for each registered flag type.  (Go's integer flags
parse with base 0, accepting `0x`-prefixes; only base-10 text is modelled.)
`none` models a `Set` error.  Unsupported kinds are never registered. -/
def flagSetParse (v : GoValue) (s : GoStr) : Option GoValue :=
  match v with
  | .vint _ => (parseInt64 s).map .vint
  | .vint64 _ => (parseInt64 s).map .vint64
  | .vdur _ => (parseDuration s).map .vdur
  | .vuint _ => (parseUint64 s).map .vuint
  | .vuint64 _ => (parseUint64 s).map .vuint64
  | .vfloat _ => (parseFloat s).map .vfloat
  | .vstr _ => some (.vstr s)
  | .vbool _ => (parseBool s).map .vbool
  | .vunsupported _ => none

/-- Whether a registered flag is boolean (boolean flags may omit `=value`). -/
def isBoolFlag : GoValue → Bool
  | .vbool _ => true
  | _ => false

/-- The body of the `flag` package's `parseOne` after the dashes have been
stripped: `nameval` is the argument without its leading dashes, `rest` the
remaining arguments (consumed from when a non-boolean flag takes its value
from the next argument).  Returns the updated registry and remaining
arguments, or the scan error. -/
def parseOne (reg : FlagReg) (nameval : GoStr) (rest : List GoStr) :
    Except FlagErr (FlagReg × List GoStr) :=
  match nameval with
  | [] => .error (.badSyntax nameval)
  | c :: _ =>
    if c = '-' ∨ c = '=' then .error (.badSyntax nameval)
    else
      match splitEq nameval with
      | (name, valOpt) =>
        match lookupFlag reg name with
        | none =>
          if name = gs "help" ∨ name = gs "h" then .error .helpRequested
          else .error (.unknownFlag name)
        | some fv =>
          if isBoolFlag fv then
            match valOpt with
            | some v =>
              (match flagSetParse fv v with
               | some nv => .ok (setFlag reg name nv, rest)
               | none => .error (.badValue v name))
            | none => .ok (setFlag reg name (.vbool true), rest)
          else
            match valOpt with
            | some v =>
              (match flagSetParse fv v with
               | some nv => .ok (setFlag reg name nv, rest)
               | none => .error (.badValue v name))
            | none =>
              match rest with
              | [] => .error (.needsArg name)
              | v :: rest2 =>
                match flagSetParse fv v with
                | some nv => .ok (setFlag reg name nv, rest2)
                | none => .error (.badValue v name)

/-- The scanning loop of `FlagSet.Parse`: each iteration consumes at least
one argument, so `args.length + 1` fuel always suffices; scanning stops
(without error) at the first non-flag argument, a lone `-`, or `--`. -/
def parseArgsLoop : Nat → FlagReg → List GoStr → Except FlagErr FlagReg
  | 0, reg, _ => .ok reg
  | _ + 1, reg, [] => .ok reg
  | fuel + 1, reg, a :: rest =>
    match a with
    | [] => .ok reg
    | [_] => .ok reg
    | c1 :: c2 :: srest =>
      if c1 ≠ '-' then .ok reg
      else if c2 = '-' then
        if srest = [] then .ok reg
        else
          match parseOne reg srest rest with
          | .error e => .error e
          | .ok (reg2, rest2) => parseArgsLoop fuel reg2 rest2
      else
        match parseOne reg (c2 :: srest) rest with
        | .error e => .error e
        | .ok (reg2, rest2) => parseArgsLoop fuel reg2 rest2

/-- Model of `flag.Parse` under `flag.PanicOnError` (set by the
`flag.CommandLine.Init` call at the top of `ParseConfig`): a scan error
panics instead of exiting the process. -/
def flagParse (reg : FlagReg) (args : List GoStr) : GoResult FlagReg :=
  match parseArgsLoop (args.length + 1) reg args with
  | .ok reg2 => .ok reg2
  | .error e => .panicked (.flagParseFail e)

/-! ## The resolution loop and ParseConfig -/

/-- The resolution loop of `ParseConfig` (lines 76-88): for every entry of
`flagValues`, find the first field declaring that flag name; when
`!PrioritiseEnv || field.IsZero()`, write the flag's post-parse value through
`setFieldValueByFlagValue` (a `false` entry is the `nil` pointer of an
unsupported kind).  The impossible index-out-of-range lookup is a no-op. -/
def resolveLoop (priEnv : Bool) (regP : FlagReg) :
    List (GoStr × Bool) → List Field → GoResult (List Field)
  | [], fields => .ok fields
  | (flagName, hasPtr) :: fvs, fields =>
    match getFieldIndexByFlagName fields flagName with
    | none => resolveLoop priEnv regP fvs fields
    | some idx =>
      match fields.get? idx with
      | none => resolveLoop priEnv regP fvs fields
      | some f =>
        if ¬ priEnv ∨ f.value.isZero then
          match setFieldValueByFlagValue f.value
              (if hasPtr then lookupFlag regP flagName else none) with
          | .ok v2 => resolveLoop priEnv regP fvs (fields.set idx { f with value := v2 })
          | .error e => .error e
          | .panicked p => .panicked p
        else resolveLoop priEnv regP fvs fields

/-- The body of `ParseConfig` — everything under the deferred `recover`:
the field loop, the single global `flag.Parse`, then the resolution loop.
Returns the final record and registry.  (On error paths the source leaves
already-processed fields mutated in the caller's record; no claim observes
the record of a failed call, so failed results carry no record.) -/
def parseConfigBody (priEnv : Bool) (env : GoStr → Option GoStr) (args : List GoStr)
    (reg0 : FlagReg) (fields : List Field) : GoResult (List Field × FlagReg) :=
  match phase1 env ⟨[], [], reg0⟩ fields with
  | .error e => .error e
  | .panicked p => .panicked p
  | .ok st =>
    match flagParse st.reg args with
    | .error e => .error e
    | .panicked p => .panicked p
    | .ok regP =>
      match resolveLoop priEnv regP st.flagVals st.fields with
      | .error e => .error e
      | .panicked p => .panicked p
      | .ok fields2 => .ok (fields2, regP)

/-- Model of `ParseConfig`.  `PrioritiseEnv` and the process environment and
arguments are passed explicitly; `reg0` is the state of the process-global
`flag.CommandLine`, which `flag.CommandLine.Init` does **not** clear — it only
renames the set and selects `PanicOnError`.  The deferred `recover` converts
every panic of the body into a normally returned error. -/
def ParseConfig (priEnv : Bool) (env : GoStr → Option GoStr) (args : List GoStr)
    (reg0 : FlagReg) (fields : List Field) : GoResult (List Field × FlagReg) :=
  match parseConfigBody priEnv env args reg0 fields with
  | .panicked p => .error (.recovered p)
  | r => r

/-- Association-list form of a process environment, for concrete runs. -/
def envOf : List (GoStr × GoStr) → GoStr → Option GoStr
  | [], _ => none
  | (k, v) :: rest, key => if k = key then some v else envOf rest key

/-! ## flag.Parse lemmas -/

/-- The flag name a command-line argument addresses (`none` for non-flag
arguments, a lone `-`, and the `--` terminator): only this name's registry
entry can be changed by scanning the argument. -/
def argNameOf : GoStr → Option GoStr
  | [] => none
  | [_] => none
  | c1 :: c2 :: srest =>
    if c1 ≠ '-' then none
    else if c2 = '-' then
      if srest = [] then none else some (splitEq srest).1
    else some (splitEq (c2 :: srest)).1

/-! ## Concrete fixtures, from the repository's test suite and README -/

/-- The `Debug` field of the README example, with its descriptor in the
`name;default;usage` form the parser expects. -/
def debugField : Field := ⟨gs "DEBUG", gs "debug;false;Enable debug logs", .vbool false⟩

/-- The `Port` field of the README example, in descriptor form. -/
def portField : Field := ⟨gs "PORT", gs "port;8080;Server port", .vint 0⟩

/-- The `Host` field of the test suite's `Config`. -/
def hostField : Field := ⟨gs "HOST", gs "host;localhost;Host address", .vstr []⟩

/-- The `Timeout` field of the test suite's `Config`. -/
def timeoutField : Field := ⟨gs "TIMEOUT", gs "timeout;10s;Connection timeout", .vdur 0⟩

/-- The `EnableLogs` field of the test suite's `Config`. -/
def logsField : Field := ⟨gs "ENABLE_LOGS", gs "enable-logs;false;Enable logging", .vbool false⟩

/-- A field of unsupported kind (e.g. a slice), nil-valued, with a
well-formed three-part descriptor. -/
def sliceField : Field := ⟨[], gs "xs;whatever;usage", .vunsupported true⟩

/-- A field carrying no flag descriptor at all (empty `flag` tag). -/
def untaggedField : Field := ⟨gs "EXTRA", [], .vstr []⟩

/-! ## Claims -/

/-! ## Theorems -/

theorem digitsVal_append (acc : Nat) (xs ys : List Nat) :
    digitsVal acc (xs ++ ys) = digitsVal (digitsVal acc xs) ys := by
  induction xs generalizing acc with
  | nil => rfl
  | cons d ds ih => simp [digitsVal, ih]

theorem natDigitsRevGo_spec (fuel : Nat) :
    ∀ n, n ≤ fuel →
      digitsVal 0 (natDigitsRevGo fuel n).reverse = n ∧
      (∀ d ∈ natDigitsRevGo fuel n, d < 10) ∧
      natDigitsRevGo fuel n ≠ [] := by
  induction fuel with
  | zero =>
    intro n hn
    interval_cases n
    simp [natDigitsRevGo, digitsVal]
  | succ fuel ih =>
    intro n hn
    by_cases h : n < 10
    · simp [natDigitsRevGo, h, digitsVal]
    · have hds : n / 10 ≤ fuel := by omega
      have := ih (n / 10) hds
      refine ⟨?_, ?_, ?_⟩
      · simp only [natDigitsRevGo, if_neg h, List.reverse_cons]
        rw [digitsVal_append, this.1]
        simp [digitsVal]
        omega
      · intro d hd
        simp only [natDigitsRevGo, if_neg h, List.mem_cons] at hd
        rcases hd with rfl | hd
        · omega
        · exact this.2.1 d hd
      · simp [natDigitsRevGo, if_neg h]

theorem digitsVal_natDigitsRev (n : Nat) :
    digitsVal 0 (natDigitsRev n).reverse = n :=
  (natDigitsRevGo_spec n n le_rfl).1

theorem natDigitsRev_lt10 (n : Nat) : ∀ d ∈ natDigitsRev n, d < 10 :=
  (natDigitsRevGo_spec n n le_rfl).2.1

theorem natDigitsRev_ne_nil (n : Nat) : natDigitsRev n ≠ [] :=
  (natDigitsRevGo_spec n n le_rfl).2.2

theorem digitToChar_toNat : ∀ d, d < 10 → (digitToChar d).toNat = 48 + d := by decide

theorem isDigitChar_digitToChar : ∀ d, d < 10 → isDigitChar (digitToChar d) = true := by decide

theorem digitToChar_ne_minus : ∀ d, d < 10 → digitToChar d ≠ '-' := by decide

theorem digitToChar_ne_plus : ∀ d, d < 10 → digitToChar d ≠ '+' := by decide

theorem noDigitStart_nil : NoDigitStart [] := by intro c h; simp at h

theorem digitsVal_acc (l : List Nat) : ∀ acc, digitsVal acc l = acc * 10 ^ l.length + digitsVal 0 l := by
  induction l with
  | nil => simp [digitsVal]
  | cons d ds ih =>
    intro acc
    simp only [digitsVal, List.length_cons]
    rw [ih (acc * 10 + d), ih (0 * 10 + d)]
    ring

theorem scanDigits_spec (ds : List Nat) (rest : GoStr) (hds : ∀ d ∈ ds, d < 10)
    (hrest : NoDigitStart rest) :
    ∀ acc k, scanDigits (ds.map digitToChar ++ rest) acc k =
      (digitsVal acc ds, k + ds.length, rest) := by
  induction ds with
  | nil =>
    intro acc k
    cases rest with
    | nil => rfl
    | cons c cs => simp [scanDigits, hrest c rfl, digitsVal]
  | cons d ds ih =>
    intro acc k
    have hd : d < 10 := hds d (by simp)
    have hds' : ∀ x ∈ ds, x < 10 := fun x hx => hds x (by simp [hx])
    simp only [List.map_cons, List.cons_append, scanDigits,
      isDigitChar_digitToChar d hd, if_pos, digitToChar_toNat d hd, List.append_eq]
    have hsub : 48 + d - 48 = d := by omega
    rw [hsub, ih hds' (acc * 10 + d) (k + 1)]
    simp [digitsVal]
    omega

theorem scanDigits_formatNat (n : Nat) (rest : GoStr) (hrest : NoDigitStart rest)
    (acc k : Nat) :
    scanDigits (formatNat n ++ rest) acc k =
      (acc * 10 ^ (natDigitsRev n).length + n, k + (natDigitsRev n).length, rest) := by
  have hlt : ∀ d ∈ (natDigitsRev n).reverse, d < 10 := by
    intro d hd
    exact natDigitsRev_lt10 n d (List.mem_reverse.mp hd)
  rw [formatNat, scanDigits_spec _ _ hlt hrest]
  rw [digitsVal_acc, digitsVal_natDigitsRev]
  simp

/-- Length of the big-endian digit rendering of `n`. -/
theorem natDigitsRevGo_length_le (fuel : Nat) :
    ∀ n k, n < 10 ^ k → 1 ≤ k → (natDigitsRevGo fuel n).length ≤ k := by
  induction fuel with
  | zero => intro n k _ hk; simpa [natDigitsRevGo] using hk
  | succ fuel ih =>
    intro n k hn hk
    by_cases h : n < 10
    · simpa [natDigitsRevGo, h] using hk
    · have hk2 : 2 ≤ k := by
        by_contra hlt
        interval_cases k
        omega
      have hdiv : n / 10 < 10 ^ (k - 1) := by
        have : 10 ^ k = 10 ^ (k - 1) * 10 := by
          rw [← pow_succ]
          congr 1
          omega
        omega
      have := ih (n / 10) (k - 1) hdiv (by omega)
      simp only [natDigitsRevGo, if_neg h, List.length_cons]
      omega

theorem natDigitsRev_length_le {n k : Nat} (hn : n < 10 ^ k) (hk : 1 ≤ k) :
    (natDigitsRev n).length ≤ k :=
  natDigitsRevGo_length_le n n k hn hk

/-- The rendering `formatNat` starts with a digit character, never with a sign. -/
theorem formatNat_head (n : Nat) :
    ∃ d ds, d < 10 ∧ formatNat n = digitToChar d :: ds := by
  have hne := natDigitsRev_ne_nil n
  rcases hrev : (natDigitsRev n).reverse with _ | ⟨d, ds⟩
  · exact absurd (by simpa using congrArg List.reverse hrev) hne
  · refine ⟨d, ds.map digitToChar, ?_, by simp [formatNat, hrev]⟩
    have : d ∈ (natDigitsRev n).reverse := by simp [hrev]
    exact natDigitsRev_lt10 n d (List.mem_reverse.mp this)

theorem natDigitsRev_length_ne_zero (n : Nat) : (natDigitsRev n).length ≠ 0 := by
  simpa [List.length_eq_zero] using natDigitsRev_ne_nil n

theorem parseUint64_formatNat {n : Nat} (h : n < 2 ^ 64) :
    parseUint64 (formatNat n) = some n := by
  have hscan := scanDigits_formatNat n [] noDigitStart_nil 0 0
  rw [List.append_nil] at hscan
  simp only [parseUint64, hscan]
  rw [if_neg]
  · simp
  · simp [natDigitsRev_length_ne_zero n]
    omega

theorem parseIntDigits_formatNat_false {n : Nat} (h : n < 2 ^ 63) :
    parseIntDigits false (formatNat n) = some (n : Int) := by
  have hscan := scanDigits_formatNat n [] noDigitStart_nil 0 0
  rw [List.append_nil] at hscan
  simp only [parseIntDigits, hscan]
  rw [if_neg (by simp [natDigitsRev_length_ne_zero n])]
  simp only [Bool.false_eq_true, if_false]
  rw [if_neg (by omega : ¬ 2 ^ 63 ≤ 0 * 10 ^ (natDigitsRev n).length + n)]
  simp

theorem parseIntDigits_formatNat_true {n : Nat} (h : n ≤ 2 ^ 63) :
    parseIntDigits true (formatNat n) = some (-(n : Int)) := by
  have hscan := scanDigits_formatNat n [] noDigitStart_nil 0 0
  rw [List.append_nil] at hscan
  simp only [parseIntDigits, hscan]
  rw [if_neg (by simp [natDigitsRev_length_ne_zero n])]
  rw [if_pos trivial]
  rw [if_neg (by omega : ¬ 2 ^ 63 < 0 * 10 ^ (natDigitsRev n).length + n)]
  norm_num

theorem parseInt64_formatInt {i : Int} (h1 : -(2 : Int) ^ 63 ≤ i) (h2 : i < 2 ^ 63) :
    parseInt64 (formatInt i) = some i := by
  by_cases hneg : i < 0
  · have habs : i.natAbs ≤ 2 ^ 63 := by omega
    have hval : (-(i.natAbs : Int)) = i := by omega
    simp only [formatInt, if_pos hneg, parseInt64, if_pos rfl]
    rw [parseIntDigits_formatNat_true habs, hval]
    simp
  · obtain ⟨d, ds, hd, hfmt⟩ := formatNat_head i.natAbs
    have habs : i.natAbs < 2 ^ 63 := by omega
    have hval : ((i.natAbs : Nat) : Int) = i := by omega
    simp only [formatInt, if_neg hneg, hfmt, parseInt64,
      if_neg (digitToChar_ne_minus d hd), if_neg (digitToChar_ne_plus d hd)]
    rw [← hfmt, parseIntDigits_formatNat_false habs, hval]

theorem parseBool_formatBool (b : Bool) : parseBool (formatBool b) = some b := by
  cases b <;> decide

theorem digitsVal_replicate_zero (k : Nat) : ∀ acc, digitsVal acc (List.replicate k 0) = acc * 10 ^ k := by
  induction k with
  | zero => intro acc; simp [digitsVal]
  | succ k ih =>
    intro acc
    simp only [List.replicate, digitsVal]
    rw [ih]
    ring

/-- The padded fraction characters of `formatFloat` as digit values. -/
theorem padZeros_formatNat (e fp : Nat) :
    padZeros e (formatNat fp) =
      (List.replicate (e - (natDigitsRev fp).length) 0 ++ (natDigitsRev fp).reverse).map digitToChar := by
  have h0 : digitToChar 0 = '0' := rfl
  simp [padZeros, formatNat, List.map_replicate, h0]

theorem scanDigits_padZeros (e fp : Nat) (hfp : fp < 10 ^ e) (he : 1 ≤ e) :
    scanDigits (padZeros e (formatNat fp)) 0 0 = (fp, e, []) := by
  rw [padZeros_formatNat]
  have hds : ∀ d ∈ List.replicate (e - (natDigitsRev fp).length) 0 ++ (natDigitsRev fp).reverse, d < 10 := by
    intro d hd
    rcases List.mem_append.mp hd with h | h
    · have := List.eq_of_mem_replicate h
      omega
    · exact natDigitsRev_lt10 fp d (List.mem_reverse.mp h)
  have := scanDigits_spec _ [] hds noDigitStart_nil 0 0
  rw [List.append_nil] at this
  rw [this]
  have hlen : (natDigitsRev fp).length ≤ e := natDigitsRev_length_le hfp he
  rw [digitsVal_append, digitsVal_replicate_zero]
  simp only [Nat.zero_mul]
  rw [digitsVal_natDigitsRev]
  simp
  omega

theorem parseFloatBody_formatNat (neg : Bool) (a : Nat) :
    parseFloatBody neg (formatNat a) = some ⟨if neg then -(a : Int) else (a : Int), 0⟩ := by
  have hscan := scanDigits_formatNat a [] noDigitStart_nil 0 0
  rw [List.append_nil] at hscan
  simp only [parseFloatBody, hscan]
  rw [if_neg (by simp [natDigitsRev_length_ne_zero a])]
  simp only [parseFloatTail]
  cases neg <;> norm_num

theorem parseFloatBody_formatFrac (neg : Bool) (a e : Nat) (he : 1 ≤ e) :
    parseFloatBody neg (formatNat (a / 10 ^ e) ++ '.' :: padZeros e (formatNat (a % 10 ^ e))) =
      some ⟨if neg then -(a : Int) else (a : Int), e⟩ := by
  have hdot : NoDigitStart ('.' :: padZeros e (formatNat (a % 10 ^ e))) := by
    intro c hc
    simp only [List.head?] at hc
    cases hc
    rfl
  have hscan1 := scanDigits_formatNat (a / 10 ^ e) ('.' :: padZeros e (formatNat (a % 10 ^ e))) hdot 0 0
  have hscan2 := scanDigits_padZeros e (a % 10 ^ e) (Nat.mod_lt _ (by positivity)) he
  simp only [parseFloatBody, hscan1, hscan2]
  rw [if_neg (by simp [natDigitsRev_length_ne_zero (a / 10 ^ e)])]
  simp only [parseFloatTail]
  cases neg <;> simp <;>
    first
    | exact Nat.div_add_mod' a (10 ^ e)
    | linarith [Int.ediv_add_emod (a : Int) ((10 : Int) ^ e)]

theorem formatNat_ne_nil (n : Nat) : formatNat n ≠ [] := by
  obtain ⟨d, ds, _, hfmt⟩ := formatNat_head n
  simp [hfmt]

theorem parseFloat_formatFloat (f : FloatVal) : parseFloat (formatFloat f) = some f := by
  obtain ⟨m, e⟩ := f
  by_cases hneg : m < 0
  · have habs : -|m| = m := by rw [abs_of_neg hneg]; ring
    rcases Nat.eq_zero_or_pos e with he | he
    · subst he
      have hstr : formatFloat ⟨m, 0⟩ = '-' :: formatNat m.natAbs := by
        simp [formatFloat, hneg]
      rw [hstr]
      have hred : parseFloat ('-' :: formatNat m.natAbs) = parseFloatBody true (formatNat m.natAbs) := by
        simp [parseFloat]
      rw [hred, parseFloatBody_formatNat]
      simp [habs]
    · have hstr : formatFloat ⟨m, e⟩ = '-' :: (formatNat (m.natAbs / 10 ^ e) ++
          '.' :: padZeros e (formatNat (m.natAbs % 10 ^ e))) := by
        simp only [formatFloat]
        rw [if_neg (by omega : ¬ e = 0), if_pos hneg]
        simp
      rw [hstr]
      have hred : parseFloat ('-' :: (formatNat (m.natAbs / 10 ^ e) ++
          '.' :: padZeros e (formatNat (m.natAbs % 10 ^ e)))) =
          parseFloatBody true (formatNat (m.natAbs / 10 ^ e) ++
            '.' :: padZeros e (formatNat (m.natAbs % 10 ^ e))) := by
        simp [parseFloat]
      rw [hred, parseFloatBody_formatFrac true _ e he]
      simp [habs]
  · have habs : |m| = m := abs_of_nonneg (by omega)
    rcases Nat.eq_zero_or_pos e with he | he
    · subst he
      have hstr : formatFloat ⟨m, 0⟩ = formatNat m.natAbs := by
        simp [formatFloat, hneg]
      rw [hstr]
      obtain ⟨d, ds, hd, hfmt⟩ := formatNat_head m.natAbs
      have hred : parseFloat (formatNat m.natAbs) = parseFloatBody false (formatNat m.natAbs) := by
        rw [hfmt]
        simp [parseFloat, digitToChar_ne_minus d hd, digitToChar_ne_plus d hd]
      rw [hred, parseFloatBody_formatNat]
      simp [habs]
    · have hstr : formatFloat ⟨m, e⟩ = formatNat (m.natAbs / 10 ^ e) ++
          '.' :: padZeros e (formatNat (m.natAbs % 10 ^ e)) := by
        simp only [formatFloat]
        rw [if_neg (by omega : ¬ e = 0), if_neg hneg]
        simp
      rw [hstr]
      obtain ⟨d, ds, hd, hfmt⟩ := formatNat_head (m.natAbs / 10 ^ e)
      have hred : parseFloat (formatNat (m.natAbs / 10 ^ e) ++
          '.' :: padZeros e (formatNat (m.natAbs % 10 ^ e))) =
          parseFloatBody false (formatNat (m.natAbs / 10 ^ e) ++
            '.' :: padZeros e (formatNat (m.natAbs % 10 ^ e))) := by
        rw [hfmt, List.cons_append]
        simp [parseFloat, digitToChar_ne_minus d hd, digitToChar_ne_plus d hd]
      rw [hred, parseFloatBody_formatFrac false _ e he]
      simp [habs]

theorem noDigitStart_ns : NoDigitStart (gs "ns") := by
  intro c hc
  cases hc
  rfl

theorem durComponents_formatNat_ns (a fuel : Nat) :
    durComponents (fuel + 2) (formatNat a ++ gs "ns") 0 = some a := by
  obtain ⟨d, ds, hd, hfmt⟩ := formatNat_head a
  have hscan := scanDigits_formatNat a (gs "ns") noDigitStart_ns 0 0
  rw [hfmt, List.cons_append]
  simp only [durComponents]
  rw [← List.cons_append, ← hfmt, hscan]
  have hk : ¬ (0 + (natDigitsRev a).length = 0) := by
    simp [natDigitsRev_length_ne_zero a]
  simp only [List.head?, gs, String.toList]
  rw [if_neg (by decide : ¬ (some 'n' = some '.'))]
  rw [if_neg hk]
  have htu : takeUnit ['n', 's'] = (['n', 's'], []) := rfl
  rw [htu]
  have hun : unitNs ['n', 's'] = some 1 := rfl
  rw [hun]
  simp only [durComponents]
  norm_num

theorem parseDuration_formatDurationNs {d : Int} (h1 : -(2 : Int) ^ 63 < d) (h2 : d < 2 ^ 63) :
    parseDuration (formatDurationNs d) = some d := by
  have hbound : d.natAbs ≤ 2 ^ 63 - 1 := by omega
  have hbody : ∀ neg : Bool,
      parseDurationBody neg (formatNat d.natAbs ++ gs "ns") =
        some (if neg then -(d.natAbs : Int) else (d.natAbs : Int)) := by
    intro neg
    have hlen0 : (1 : Nat) ≤ (natDigitsRev d.natAbs).length := by
      have := natDigitsRev_length_ne_zero d.natAbs
      omega
    have hlen : (formatNat d.natAbs).length = (natDigitsRev d.natAbs).length := by
      simp [formatNat]
    have hne0 : formatNat d.natAbs ++ gs "ns" ≠ gs "0" := by
      intro hcontra
      have := congrArg List.length hcontra
      simp [hlen, gs] at this
    have hnenil : formatNat d.natAbs ++ gs "ns" ≠ [] := by
      intro hcontra
      have := congrArg List.length hcontra
      simp [hlen, gs] at this
    rw [parseDurationBody, if_neg hne0, if_neg hnenil]
    have hfuel : (formatNat d.natAbs ++ gs "ns").length + 1 =
        ((natDigitsRev d.natAbs).length + 1) + 2 := by
      simp [hlen, gs]
    rw [hfuel, durComponents_formatNat_ns]
    have hcond : ¬ 2 ^ 63 - 1 < d.natAbs := by omega
    simp [hcond]
    omega
  rw [formatDurationNs, formatInt]
  by_cases hneg : d < 0
  · rw [if_pos hneg, List.cons_append]
    have hred : parseDuration ('-' :: (formatNat d.natAbs ++ gs "ns")) =
        parseDurationBody true (formatNat d.natAbs ++ gs "ns") := by
      simp [parseDuration]
    rw [hred, hbody true]
    simp [abs_of_neg hneg]
  · rw [if_neg hneg]
    obtain ⟨dd, ds, hd, hfmt⟩ := formatNat_head d.natAbs
    have hred : parseDuration (formatNat d.natAbs ++ gs "ns") =
        parseDurationBody false (formatNat d.natAbs ++ gs "ns") := by
      rw [hfmt, List.cons_append]
      simp [parseDuration, digitToChar_ne_minus dd hd, digitToChar_ne_plus dd hd]
    rw [hred, hbody false]
    simp [abs_of_nonneg (by omega : (0 : Int) ≤ d)]

/-! ## Range and round-trip lemmas for the typed values -/

theorem parseIntDigits_range {neg : Bool} {r : GoStr} {i : Int}
    (h : parseIntDigits neg r = some i) : -(2 : Int) ^ 63 ≤ i ∧ i < 2 ^ 63 := by
  unfold parseIntDigits at h
  rcases hs : scanDigits r 0 0 with ⟨v, k, rest⟩
  rw [hs] at h
  simp only at h
  split_ifs at h with h1 h2 h3 h4
  · cases h
    constructor <;> omega
  · cases h
    constructor <;> omega

theorem parseInt64_range {l : GoStr} {i : Int} (h : parseInt64 l = some i) :
    -(2 : Int) ^ 63 ≤ i ∧ i < 2 ^ 63 := by
  cases l with
  | nil => cases h
  | cons c r =>
    simp only [parseInt64] at h
    split_ifs at h <;> exact parseIntDigits_range h

theorem parseUint64_range {l : GoStr} {n : Nat} (h : parseUint64 l = some n) : n < 2 ^ 64 := by
  unfold parseUint64 at h
  rcases hs : scanDigits l 0 0 with ⟨v, k, rest⟩
  rw [hs] at h
  simp only at h
  split_ifs at h with h1
  cases h
  omega

theorem parseDurationBody_range {neg : Bool} {l : GoStr} {d : Int}
    (h : parseDurationBody neg l = some d) : -(2 : Int) ^ 63 < d ∧ d < 2 ^ 63 := by
  unfold parseDurationBody at h
  by_cases h1 : l = gs "0"
  · rw [if_pos h1] at h
    cases h
    constructor <;> omega
  · rw [if_neg h1] at h
    by_cases h2 : l = []
    · rw [if_pos h2] at h
      cases h
    · rw [if_neg h2] at h
      rcases hc : durComponents (l.length + 1) l 0 with _ | n
      · rw [hc] at h
        cases h
      · rw [hc] at h
        simp only at h
        by_cases h3 : 2 ^ 63 - 1 < n
        · rw [if_pos h3] at h
          cases h
        · rw [if_neg h3] at h
          cases h
          cases neg <;> simp <;> omega

theorem parseDuration_range {l : GoStr} {d : Int} (h : parseDuration l = some d) :
    -(2 : Int) ^ 63 < d ∧ d < 2 ^ 63 := by
  cases l with
  | nil => cases h
  | cons c r =>
    simp only [parseDuration] at h
    split_ifs at h <;> exact parseDurationBody_range h

/-- The central round-trip fact behind the resolution loop: a value obtained
by parsing a field's textual default is written back unchanged when
`setFieldValueByFlagValue` formats it and re-parses it through `setValue`. -/
theorem setFieldValueByFlagValue_roundtrip {v dv : GoValue} {d : GoStr}
    (h : defaultParsed v d = some dv) :
    setFieldValueByFlagValue v (some dv) = .ok dv := by
  cases v with
  | vint i0 =>
    rcases Option.map_eq_some'.mp h with ⟨j, hj, rfl⟩
    obtain ⟨hr1, hr2⟩ := parseInt64_range hj
    simp [setFieldValueByFlagValue, setValue, parseInt64_formatInt hr1 hr2]
  | vint64 i0 =>
    rcases Option.map_eq_some'.mp h with ⟨j, hj, rfl⟩
    obtain ⟨hr1, hr2⟩ := parseInt64_range hj
    simp [setFieldValueByFlagValue, setValue, parseInt64_formatInt hr1 hr2]
  | vdur ns0 =>
    rcases Option.map_eq_some'.mp h with ⟨j, hj, rfl⟩
    obtain ⟨hr1, hr2⟩ := parseDuration_range hj
    simp [setFieldValueByFlagValue, setValue, parseDuration_formatDurationNs hr1 hr2]
  | vuint n0 =>
    rcases Option.map_eq_some'.mp h with ⟨j, hj, rfl⟩
    have hr := parseUint64_range hj
    simp [setFieldValueByFlagValue, setValue, parseUint64_formatNat hr]
  | vuint64 n0 =>
    rcases Option.map_eq_some'.mp h with ⟨j, hj, rfl⟩
    have hr := parseUint64_range hj
    simp [setFieldValueByFlagValue, setValue, parseUint64_formatNat hr]
  | vfloat f0 =>
    rcases Option.map_eq_some'.mp h with ⟨j, hj, rfl⟩
    simp [setFieldValueByFlagValue, setValue, parseFloat_formatFloat]
  | vstr s0 =>
    simp only [defaultParsed, Option.some.injEq] at h
    subst h
    simp [setFieldValueByFlagValue, setValue]
  | vbool b0 =>
    rcases Option.map_eq_some'.mp h with ⟨j, hj, rfl⟩
    simp [setFieldValueByFlagValue, setValue, parseBool_formatBool]
  | vunsupported z => cases h

/-! ## Descriptor, kind and registry lemmas -/

theorem parseFlagArgs_ok_parts {t n d u : GoStr} (h : parseFlagArgs t = .ok (n, d, u)) :
    ∃ rest, splitSemi t = n :: d :: u :: rest := by
  unfold parseFlagArgs at h
  rcases hs : splitSemi t with _ | ⟨a, _ | ⟨b, _ | ⟨c, rest⟩⟩⟩ <;> rw [hs] at h
  · cases h
  · cases h
  · cases h
  · cases h
    exact ⟨rest, rfl⟩

theorem parseFlagArgs_ok_head {t n d u : GoStr} (h : parseFlagArgs t = .ok (n, d, u)) :
    (splitSemi t).headD [] = n := by
  obtain ⟨rest, hs⟩ := parseFlagArgs_ok_parts h
  simp [hs]

theorem parseFlagArgs_ok_tag_ne_nil {t n d u : GoStr} (h : parseFlagArgs t = .ok (n, d, u)) :
    t ≠ [] := by
  intro hnil
  subst hnil
  obtain ⟨rest, hs⟩ := parseFlagArgs_ok_parts h
  simp [splitSemi] at hs

theorem setValue_kind {v v2 : GoValue} {s : GoStr} (h : setValue v s = some v2) :
    v2.kind = v.kind := by
  cases v with
  | vint i =>
    simp only [setValue] at h
    rcases Option.map_eq_some'.mp h with ⟨j, _, rfl⟩
    rfl
  | vint64 i =>
    simp only [setValue] at h
    rcases Option.map_eq_some'.mp h with ⟨j, _, rfl⟩
    rfl
  | vdur ns =>
    simp only [setValue] at h
    rcases Option.map_eq_some'.mp h with ⟨j, _, rfl⟩
    rfl
  | vuint n =>
    simp only [setValue] at h
    rcases Option.map_eq_some'.mp h with ⟨j, _, rfl⟩
    rfl
  | vuint64 n =>
    simp only [setValue] at h
    rcases Option.map_eq_some'.mp h with ⟨j, _, rfl⟩
    rfl
  | vfloat f =>
    simp only [setValue] at h
    rcases Option.map_eq_some'.mp h with ⟨j, _, rfl⟩
    rfl
  | vstr s0 =>
    simp only [setValue, Option.some.injEq] at h
    subst h
    rfl
  | vbool b =>
    simp only [setValue] at h
    rcases Option.map_eq_some'.mp h with ⟨j, _, rfl⟩
    rfl
  | vunsupported z =>
    simp only [setValue, Option.some.injEq] at h
    subst h
    rfl

theorem defaultParsed_kind {v dv : GoValue} {d : GoStr} (h : defaultParsed v d = some dv) :
    dv.kind = v.kind := by
  cases v with
  | vint i =>
    simp only [defaultParsed] at h
    rcases Option.map_eq_some'.mp h with ⟨j, _, rfl⟩
    rfl
  | vint64 i =>
    simp only [defaultParsed] at h
    rcases Option.map_eq_some'.mp h with ⟨j, _, rfl⟩
    rfl
  | vdur ns =>
    simp only [defaultParsed] at h
    rcases Option.map_eq_some'.mp h with ⟨j, _, rfl⟩
    rfl
  | vuint n =>
    simp only [defaultParsed] at h
    rcases Option.map_eq_some'.mp h with ⟨j, _, rfl⟩
    rfl
  | vuint64 n =>
    simp only [defaultParsed] at h
    rcases Option.map_eq_some'.mp h with ⟨j, _, rfl⟩
    rfl
  | vfloat f =>
    simp only [defaultParsed] at h
    rcases Option.map_eq_some'.mp h with ⟨j, _, rfl⟩
    rfl
  | vstr s0 =>
    simp only [defaultParsed, Option.some.injEq] at h
    subst h
    rfl
  | vbool b =>
    simp only [defaultParsed] at h
    rcases Option.map_eq_some'.mp h with ⟨j, _, rfl⟩
    rfl
  | vunsupported z => cases h

theorem envApplied_envTag (env : GoStr → Option GoStr) (f : Field) :
    (envApplied env f).envTag = f.envTag := by
  unfold envApplied
  cases env f.envTag <;> rfl

theorem envApplied_flagTag (env : GoStr → Option GoStr) (f : Field) :
    (envApplied env f).flagTag = f.flagTag := by
  unfold envApplied
  cases env f.envTag <;> rfl

theorem envApplied_kind (env : GoStr → Option GoStr) (f : Field) :
    (envApplied env f).value.kind = f.value.kind := by
  unfold envApplied
  cases hv : env f.envTag with
  | none => rfl
  | some s =>
    simp only
    cases hs : setValue f.value s with
    | none => simp [hs]
    | some v2 => simp [hs, setValue_kind hs]

theorem kind_unsup_iff (v : GoValue) : v.kind = .kunsup ↔ ∃ z, v = .vunsupported z := by
  cases v <;> simp [GoValue.kind]

theorem lookupFlag_append (l1 l2 : FlagReg) (k : GoStr) :
    lookupFlag (l1 ++ l2) k =
      match lookupFlag l1 k with
      | some v => some v
      | none => lookupFlag l2 k := by
  induction l1 with
  | nil => simp [lookupFlag]
  | cons p rest ih =>
    obtain ⟨n, v⟩ := p
    by_cases hn : n = k <;> simp [lookupFlag, hn, ih]

theorem lookupFlag_setFlag_ne (reg : FlagReg) (name : GoStr) (nv : GoValue) (k : GoStr)
    (h : name ≠ k) : lookupFlag (setFlag reg name nv) k = lookupFlag reg k := by
  induction reg with
  | nil => rfl
  | cons p rest ih =>
    obtain ⟨n, v⟩ := p
    by_cases hn : n = name
    · subst hn
      simp [setFlag, lookupFlag, h]
    · simp [setFlag, lookupFlag, hn, ih]

theorem mapSet_fresh {m : List (GoStr × Bool)} {k : GoStr} (v : Bool)
    (h : ∀ p ∈ m, p.1 ≠ k) : mapSet m k v = m ++ [(k, v)] := by
  induction m with
  | nil => rfl
  | cons p rest ih =>
    obtain ⟨k0, v0⟩ := p
    have hk0 : k0 ≠ k := h (k0, v0) (by simp)
    simp [mapSet, hk0]
    exact ih fun q hq => h q (by simp [hq])

theorem getFieldIndexByFlagName_sound {fields : List Field} {k : GoStr} {j : Nat}
    (h : getFieldIndexByFlagName fields k = some j) :
    ∃ fj, fields.get? j = some fj ∧ fj.flagTag ≠ [] ∧ flagTagHead fj = k := by
  induction fields generalizing j with
  | nil => cases h
  | cons f rest ih =>
    unfold getFieldIndexByFlagName at h
    by_cases hc : f.flagTag ≠ [] ∧ flagTagHead f = k
    · rw [if_pos hc] at h
      cases h
      exact ⟨f, rfl, hc.1, hc.2⟩
    · rw [if_neg hc] at h
      rcases Option.map_eq_some'.mp h with ⟨j0, hj0, rfl⟩
      obtain ⟨fj, hget, hprops⟩ := ih hj0
      exact ⟨fj, by simpa using hget, hprops⟩

theorem getFieldIndexByFlagName_first {fields : List Field} {i : Nat} {f : Field}
    (hf : fields.get? i = some f) (htag : f.flagTag ≠ [])
    (hfirst : ∀ j g, j < i → fields.get? j = some g →
      ¬(g.flagTag ≠ [] ∧ flagTagHead g = flagTagHead f)) :
    getFieldIndexByFlagName fields (flagTagHead f) = some i := by
  induction fields generalizing i with
  | nil => cases hf
  | cons g rest ih =>
    cases i with
    | zero =>
      simp only [List.get?] at hf
      cases hf
      unfold getFieldIndexByFlagName
      rw [if_pos ⟨htag, rfl⟩]
    | succ i0 =>
      have hg : ¬(g.flagTag ≠ [] ∧ flagTagHead g = flagTagHead f) :=
        hfirst 0 g (Nat.succ_pos i0) rfl
      unfold getFieldIndexByFlagName
      rw [if_neg hg]
      have hrec := ih (by simpa using hf)
        (fun j g' hj hg' => hfirst (j + 1) g' (by omega) (by simpa using hg'))
      rw [hrec]
      rfl

theorem getFieldIndexByFlagName_congr {l1 l2 : List Field}
    (h : ∀ j, (l1.get? j).map Field.flagTag = (l2.get? j).map Field.flagTag) (k : GoStr) :
    getFieldIndexByFlagName l1 k = getFieldIndexByFlagName l2 k := by
  induction l1 generalizing l2 with
  | nil =>
    cases l2 with
    | nil => rfl
    | cons g r2 =>
      have h0 := h 0
      simp [List.get?] at h0
  | cons f r1 ih =>
    cases l2 with
    | nil =>
      have h0 := h 0
      simp [List.get?] at h0
    | cons g r2 =>
      have h0 := h 0
      simp only [List.get?, Option.map_some'] at h0
      have htag : f.flagTag = g.flagTag := by
        simpa using h0
      have harg : ∀ j, (r1.get? j).map Field.flagTag = (r2.get? j).map Field.flagTag :=
        fun j => by simpa using h (j + 1)
      have hrest := ih harg
      unfold getFieldIndexByFlagName
      rw [hrest]
      simp [flagTagHead, htag]

/-! ## List indexing helpers -/

theorem get?_set_ne {α : Type} (l : List α) (i j : Nat) (a : α) (h : i ≠ j) :
    (l.set i a).get? j = l.get? j := by
  induction l generalizing i j with
  | nil => simp
  | cons x r ih =>
    cases i with
    | zero =>
      cases j with
      | zero => exact absurd rfl h
      | succ j0 => simp [List.set]
    | succ i0 =>
      cases j with
      | zero => simp [List.set]
      | succ j0 =>
        simp only [List.set, List.get?]
        exact ih i0 j0 (by omega)

theorem get?_set_self {α : Type} (l : List α) (i : Nat) (a x : α) (h : l.get? i = some x) :
    (l.set i a).get? i = some a := by
  induction l generalizing i with
  | nil => cases h
  | cons y r ih =>
    cases i with
    | zero => rfl
    | succ i0 => exact ih i0 (by simpa using h)

theorem list_decomp {α : Type} {l : List α} {i : Nat} {x : α} (h : l.get? i = some x) :
    l = l.take i ++ x :: l.drop (i + 1) ∧ (l.take i).length = i := by
  induction l generalizing i with
  | nil => cases h
  | cons a r ih =>
    cases i with
    | zero =>
      simp only [List.get?] at h
      cases h
      simp
    | succ i0 =>
      obtain ⟨hdec, hlen⟩ := ih (by simpa using h)
      constructor
      · simpa [List.take, List.drop] using congrArg (a :: ·) hdec
      · simp [List.take, hlen]

/-! ## Resolution-loop lemmas -/

theorem resolveLoop_cons_none {priEnv : Bool} {regP : FlagReg} {k : GoStr} {b : Bool}
    {fvs : List (GoStr × Bool)} {fields : List Field}
    (hidx : getFieldIndexByFlagName fields k = none) :
    resolveLoop priEnv regP ((k, b) :: fvs) fields = resolveLoop priEnv regP fvs fields := by
  simp [resolveLoop, hidx]

theorem resolveLoop_cons_oob {priEnv : Bool} {regP : FlagReg} {k : GoStr} {b : Bool}
    {fvs : List (GoStr × Bool)} {fields : List Field} {idx : Nat}
    (hidx : getFieldIndexByFlagName fields k = some idx)
    (hget : fields.get? idx = none) :
    resolveLoop priEnv regP ((k, b) :: fvs) fields = resolveLoop priEnv regP fvs fields := by
  simp only [resolveLoop, hidx, hget]

theorem resolveLoop_cons_skip {priEnv : Bool} {regP : FlagReg} {k : GoStr} {b : Bool}
    {fvs : List (GoStr × Bool)} {fields : List Field} {idx : Nat} {f : Field}
    (hidx : getFieldIndexByFlagName fields k = some idx)
    (hget : fields.get? idx = some f)
    (hcond : ¬ (¬ priEnv = true ∨ f.value.isZero = true)) :
    resolveLoop priEnv regP ((k, b) :: fvs) fields = resolveLoop priEnv regP fvs fields := by
  simp only [resolveLoop, hidx, hget]
  rw [if_neg hcond]

theorem resolveLoop_cons_write {priEnv : Bool} {regP : FlagReg} {k : GoStr} {b : Bool}
    {fvs : List (GoStr × Bool)} {fields : List Field} {idx : Nat} {f : Field}
    (hidx : getFieldIndexByFlagName fields k = some idx)
    (hget : fields.get? idx = some f)
    (hcond : ¬ priEnv = true ∨ f.value.isZero = true) :
    resolveLoop priEnv regP ((k, b) :: fvs) fields =
      match setFieldValueByFlagValue f.value (if b then lookupFlag regP k else none) with
      | .ok v2 => resolveLoop priEnv regP fvs (fields.set idx { f with value := v2 })
      | .error e => .error e
      | .panicked p => .panicked p := by
  simp only [resolveLoop, hidx, hget]
  rw [if_pos hcond]

theorem resolveLoop_append (priEnv : Bool) (regP : FlagReg) (A B : List (GoStr × Bool))
    (fields : List Field) :
    resolveLoop priEnv regP (A ++ B) fields =
      match resolveLoop priEnv regP A fields with
      | .ok fields1 => resolveLoop priEnv regP B fields1
      | .error e => .error e
      | .panicked p => .panicked p := by
  induction A generalizing fields with
  | nil => simp [resolveLoop]
  | cons p fvs ih =>
    obtain ⟨k, b⟩ := p
    rw [List.cons_append]
    cases hidx : getFieldIndexByFlagName fields k with
    | none =>
      rw [resolveLoop_cons_none hidx, resolveLoop_cons_none hidx, ih fields]
    | some idx =>
      cases hget : fields.get? idx with
      | none =>
        rw [resolveLoop_cons_oob hidx hget, resolveLoop_cons_oob hidx hget, ih fields]
      | some f =>
        by_cases hcond : ¬ priEnv = true ∨ f.value.isZero = true
        · rw [resolveLoop_cons_write hidx hget hcond, resolveLoop_cons_write hidx hget hcond]
          cases hsfv : setFieldValueByFlagValue f.value
              (if b then lookupFlag regP k else none) with
          | ok v2 => exact ih _
          | error e => rfl
          | panicked pp => rfl
        · rw [resolveLoop_cons_skip hidx hget hcond, resolveLoop_cons_skip hidx hget hcond,
            ih fields]

theorem resolveLoop_tags {priEnv : Bool} {regP : FlagReg} {fvs : List (GoStr × Bool)}
    {fields out : List Field} (h : resolveLoop priEnv regP fvs fields = .ok out) :
    ∀ j, (out.get? j).map Field.flagTag = (fields.get? j).map Field.flagTag := by
  induction fvs generalizing fields with
  | nil =>
    cases h
    intro j
    rfl
  | cons p fvs ih =>
    obtain ⟨k, b⟩ := p
    cases hidx : getFieldIndexByFlagName fields k with
    | none =>
      rw [resolveLoop_cons_none hidx] at h
      exact ih h
    | some idx =>
      cases hget : fields.get? idx with
      | none =>
        rw [resolveLoop_cons_oob hidx hget] at h
        exact ih h
      | some f =>
        by_cases hcond : ¬ priEnv = true ∨ f.value.isZero = true
        · rw [resolveLoop_cons_write hidx hget hcond] at h
          cases hsfv : setFieldValueByFlagValue f.value
              (if b then lookupFlag regP k else none) with
          | ok v2 =>
            rw [hsfv] at h
            intro j
            rw [ih h j]
            by_cases hj : idx = j
            · subst hj
              rw [get?_set_self fields idx _ f hget, hget]
              rfl
            · rw [get?_set_ne fields idx j _ hj]
          | error e =>
            rw [hsfv] at h
            cases h
          | panicked pp =>
            rw [hsfv] at h
            cases h
        · rw [resolveLoop_cons_skip hidx hget hcond] at h
          exact ih h

theorem resolveLoop_preserve_nonzero {regP : FlagReg} {fvs : List (GoStr × Bool)}
    {fields out : List Field} {i : Nat} {f : Field}
    (h : resolveLoop true regP fvs fields = .ok out)
    (hf : fields.get? i = some f) (hnz : f.value.isZero = false) :
    out.get? i = some f := by
  induction fvs generalizing fields with
  | nil =>
    cases h
    exact hf
  | cons p fvs ih =>
    obtain ⟨k, b⟩ := p
    cases hidx : getFieldIndexByFlagName fields k with
    | none =>
      rw [resolveLoop_cons_none hidx] at h
      exact ih h hf
    | some idx =>
      cases hget : fields.get? idx with
      | none =>
        rw [resolveLoop_cons_oob hidx hget] at h
        exact ih h hf
      | some g =>
        by_cases hcond : ¬ (true : Bool) = true ∨ g.value.isZero = true
        · rw [resolveLoop_cons_write hidx hget hcond] at h
          have hne : idx ≠ i := by
            intro hcontra
            subst hcontra
            rw [hget] at hf
            cases hf
            rcases hcond with hc | hc
            · simp at hc
            · rw [hnz] at hc
              cases hc
          cases hsfv : setFieldValueByFlagValue g.value
              (if b then lookupFlag regP k else none) with
          | ok v2 =>
            rw [hsfv] at h
            exact ih h (by rw [get?_set_ne fields idx i _ hne]; exact hf)
          | error e =>
            rw [hsfv] at h
            cases h
          | panicked pp =>
            rw [hsfv] at h
            cases h
        · rw [resolveLoop_cons_skip hidx hget hcond] at h
          exact ih h hf

theorem resolveLoop_preserve_keys {priEnv : Bool} {regP : FlagReg} {fvs : List (GoStr × Bool)}
    {fields out : List Field} {i : Nat} {f : Field}
    (h : resolveLoop priEnv regP fvs fields = .ok out)
    (hf : fields.get? i = some f)
    (hkeys : ∀ p ∈ fvs, p.1 ≠ flagTagHead f) :
    out.get? i = some f := by
  induction fvs generalizing fields with
  | nil =>
    cases h
    exact hf
  | cons p fvs ih =>
    obtain ⟨k, b⟩ := p
    have hk : k ≠ flagTagHead f := hkeys (k, b) (by simp)
    have hkeys' : ∀ p ∈ fvs, p.1 ≠ flagTagHead f := fun q hq => hkeys q (by simp [hq])
    cases hidx : getFieldIndexByFlagName fields k with
    | none =>
      rw [resolveLoop_cons_none hidx] at h
      exact ih h hf hkeys'
    | some idx =>
      cases hget : fields.get? idx with
      | none =>
        rw [resolveLoop_cons_oob hidx hget] at h
        exact ih h hf hkeys'
      | some g =>
        have hne : idx ≠ i := by
          intro hcontra
          subst hcontra
          obtain ⟨fj, hfj, _, hhead⟩ := getFieldIndexByFlagName_sound hidx
          rw [hf] at hfj
          cases hfj
          exact hk hhead.symm
        by_cases hcond : ¬ priEnv = true ∨ g.value.isZero = true
        · rw [resolveLoop_cons_write hidx hget hcond] at h
          cases hsfv : setFieldValueByFlagValue g.value
              (if b then lookupFlag regP k else none) with
          | ok v2 =>
            rw [hsfv] at h
            exact ih h (by rw [get?_set_ne fields idx i _ hne]; exact hf) hkeys'
          | error e =>
            rw [hsfv] at h
            cases h
          | panicked pp =>
            rw [hsfv] at h
            cases h
        · rw [resolveLoop_cons_skip hidx hget hcond] at h
          exact ih h hf hkeys'

/-! ## Field-loop lemmas -/

theorem registerFlag_ok {reg : FlagReg} {n : GoStr} {v : GoValue} {reg2 : FlagReg}
    (h : registerFlag reg n v = .ok reg2) :
    lookupFlag reg n = none ∧ reg2 = reg ++ [(n, v)] := by
  unfold registerFlag at h
  cases hl : lookupFlag reg n with
  | some w => rw [hl] at h; cases h
  | none =>
    rw [hl] at h
    cases h
    exact ⟨rfl, rfl⟩

theorem getFlagSetValue_not_unsup {v : GoValue} (n d : GoStr) (reg : FlagReg)
    (hv : v.kind ≠ .kunsup) :
    getFlagSetValue v n d reg =
      match defaultParsed v d with
      | none => .error (.conv d)
      | some dv =>
        match registerFlag reg n dv with
        | .ok reg2 => .ok (reg2, true)
        | .error e => .error e
        | .panicked p => .panicked p := by
  cases v
  case vunsupported z => exact absurd rfl hv
  all_goals rfl

theorem getFlagSetValue_ok {v : GoValue} {n d : GoStr} {reg reg2 : FlagReg} {ptr : Bool}
    (h : getFlagSetValue v n d reg = .ok (reg2, ptr)) :
    (v.kind = .kunsup ∧ reg2 = reg ∧ ptr = false) ∨
    (v.kind ≠ .kunsup ∧ ∃ dv, defaultParsed v d = some dv ∧ lookupFlag reg n = none ∧
      reg2 = reg ++ [(n, dv)] ∧ ptr = true) := by
  by_cases hv : v.kind = .kunsup
  · obtain ⟨z, rfl⟩ := (kind_unsup_iff v).mp hv
    cases h
    exact Or.inl ⟨rfl, rfl, rfl⟩
  · rw [getFlagSetValue_not_unsup n d reg hv] at h
    cases hdp : defaultParsed v d with
    | none =>
      simp only [hdp] at h
      cases h
    | some dv =>
      simp only [hdp] at h
      cases hrf : registerFlag reg n dv with
      | ok reg3 =>
        simp only [hrf] at h
        cases h
        obtain ⟨hl, hr⟩ := registerFlag_ok hrf
        exact Or.inr ⟨hv, dv, rfl, hl, hr, rfl⟩
      | error e =>
        simp only [hrf] at h
        cases h
      | panicked p =>
        simp only [hrf] at h
        cases h

theorem processField_eq_ok {env : GoStr → Option GoStr} {st : P1State} {f : Field}
    {n d u : GoStr} {reg2 : FlagReg} {ptr : Bool}
    (hpf : parseFlagArgs f.flagTag = .ok (n, d, u))
    (hgf : getFlagSetValue (envApplied env f).value n d st.reg = .ok (reg2, ptr)) :
    processField env st f = .ok ⟨st.fields ++ [envApplied env f], mapSet st.flagVals n ptr, reg2⟩ := by
  simp [processField, hpf, hgf]

theorem processField_ok {env : GoStr → Option GoStr} {st : P1State} {f : Field} {st2 : P1State}
    (h : processField env st f = .ok st2) :
    ∃ n d u reg2 ptr,
      parseFlagArgs f.flagTag = .ok (n, d, u) ∧
      getFlagSetValue (envApplied env f).value n d st.reg = .ok (reg2, ptr) ∧
      st2 = ⟨st.fields ++ [envApplied env f], mapSet st.flagVals n ptr, reg2⟩ := by
  cases hpf : parseFlagArgs f.flagTag with
  | panicked p => simp [processField, hpf] at h
  | error e => simp [processField, hpf] at h
  | ok trip =>
    obtain ⟨n, d, u⟩ := trip
    cases hgf : getFlagSetValue (envApplied env f).value n d st.reg with
    | panicked p => simp [processField, hpf, hgf] at h
    | error e => simp [processField, hpf, hgf] at h
    | ok pair =>
      obtain ⟨reg2, ptr⟩ := pair
      rw [processField_eq_ok hpf hgf] at h
      injection h with hinj
      exact ⟨n, d, u, reg2, ptr, rfl, hgf, hinj.symm⟩

theorem phase1_cons_ok {env : GoStr → Option GoStr} {st st2 : P1State} {f : Field}
    (h : processField env st f = .ok st2) (rest : List Field) :
    phase1 env st (f :: rest) = phase1 env st2 rest := by
  simp [phase1, h]

theorem phase1_cons_error {env : GoStr → Option GoStr} {st : P1State} {f : Field} {e : GoErr}
    (h : processField env st f = .error e) (rest : List Field) :
    phase1 env st (f :: rest) = .error e := by
  simp [phase1, h]

theorem phase1_cons_panicked {env : GoStr → Option GoStr} {st : P1State} {f : Field} {p : GoAbort}
    (h : processField env st f = .panicked p) (rest : List Field) :
    phase1 env st (f :: rest) = .panicked p := by
  simp [phase1, h]

theorem phase1_append (env : GoStr → Option GoStr) (l1 l2 : List Field) :
    ∀ st, phase1 env st (l1 ++ l2) =
      match phase1 env st l1 with
      | .ok st1 => phase1 env st1 l2
      | .error e => .error e
      | .panicked p => .panicked p := by
  induction l1 with
  | nil => intro st; simp [phase1]
  | cons f rest ih =>
    intro st
    rw [List.cons_append]
    cases hpf : processField env st f with
    | ok st2 => rw [phase1_cons_ok hpf, phase1_cons_ok hpf, ih st2]
    | error e => rw [phase1_cons_error hpf, phase1_cons_error hpf]
    | panicked p => rw [phase1_cons_panicked hpf, phase1_cons_panicked hpf]

theorem phase1_ok_fields {env : GoStr → Option GoStr} {fields : List Field} :
    ∀ {st st' : P1State}, phase1 env st fields = .ok st' →
      st'.fields = st.fields ++ fields.map (envApplied env) := by
  induction fields with
  | nil =>
    intro st st' h
    cases h
    simp
  | cons f rest ih =>
    intro st st' h
    cases hpf : processField env st f with
    | ok st2 =>
      rw [phase1_cons_ok hpf] at h
      obtain ⟨n, d, u, reg2, ptr, _, _, hst2⟩ := processField_ok hpf
      rw [ih h, hst2]
      simp
    | error e => rw [phase1_cons_error hpf] at h; cases h
    | panicked p => rw [phase1_cons_panicked hpf] at h; cases h

theorem phase1_flagVals_suffix {env : GoStr → Option GoStr} {fields : List Field} :
    ∀ {st st' : P1State}, phase1 env st fields = .ok st' →
      (∀ f ∈ fields, ∀ p ∈ st.flagVals, p.1 ≠ flagTagHead f) →
      List.Pairwise (· ≠ ·) (fields.map flagTagHead) →
      ∃ suf, st'.flagVals = st.flagVals ++ suf ∧
        ∀ p ∈ suf, p.1 ∈ fields.map flagTagHead := by
  induction fields with
  | nil =>
    intro st st' h _ _
    cases h
    exact ⟨[], by simp, by simp⟩
  | cons f rest ih =>
    intro st st' h hfresh hdist
    cases hpf : processField env st f with
    | ok st2 =>
      rw [phase1_cons_ok hpf] at h
      obtain ⟨n, d, u, reg2, ptr, hpfa, hgf, hst2⟩ := processField_ok hpf
      have hn : flagTagHead f = n := parseFlagArgs_ok_head hpfa
      have hfreshf : ∀ p ∈ st.flagVals, p.1 ≠ n := by
        intro p hp
        rw [← hn]
        exact hfresh f (by simp) p hp
      have hst2fv : st2.flagVals = st.flagVals ++ [(n, ptr)] := by
        rw [hst2]
        exact mapSet_fresh ptr hfreshf
      have hdist2 : List.Pairwise (· ≠ ·) (flagTagHead f :: rest.map flagTagHead) := by
        simpa using hdist
      have hpair := List.pairwise_cons.mp hdist2
      have hfresh2 : ∀ g ∈ rest, ∀ p ∈ st2.flagVals, p.1 ≠ flagTagHead g := by
        intro g hg p hp
        rw [hst2fv] at hp
        rcases List.mem_append.mp hp with hp | hp
        · exact hfresh g (by simp [hg]) p hp
        · have hpn : p = (n, ptr) := by simpa using hp
          subst hpn
          have := hpair.1 (flagTagHead g) (List.mem_map_of_mem _ hg)
          simpa [← hn] using this
      obtain ⟨suf, hsuf, hkeys⟩ := ih h hfresh2 hpair.2
      refine ⟨(n, ptr) :: suf, ?_, ?_⟩
      · rw [hsuf, hst2fv]
        simp
      · intro p hp
        rcases List.mem_cons.mp hp with hp | hp
        · subst hp
          simp [← hn]
        · have := hkeys p hp
          simp only [List.map_cons, List.mem_cons]
          exact Or.inr (by simpa using this)
    | error e => rw [phase1_cons_error hpf] at h; cases h
    | panicked p => rw [phase1_cons_panicked hpf] at h; cases h

theorem phase1_reg_suffix {env : GoStr → Option GoStr} {fields : List Field} :
    ∀ {st st' : P1State}, phase1 env st fields = .ok st' →
      ∃ suf, st'.reg = st.reg ++ suf ∧ ∀ p ∈ suf, p.1 ∈ fields.map flagTagHead := by
  induction fields with
  | nil =>
    intro st st' h
    cases h
    exact ⟨[], by simp, by simp⟩
  | cons f rest ih =>
    intro st st' h
    cases hpf : processField env st f with
    | ok st2 =>
      rw [phase1_cons_ok hpf] at h
      obtain ⟨n, d, u, reg2, ptr, hpfa, hgf, hst2⟩ := processField_ok hpf
      have hn : flagTagHead f = n := parseFlagArgs_ok_head hpfa
      obtain ⟨suf2, hsuf2, hkeys2⟩ := ih h
      rcases getFlagSetValue_ok hgf with ⟨_, hreg, _⟩ | ⟨_, dv, _, _, hreg, _⟩
      · refine ⟨suf2, ?_, ?_⟩
        · rw [hsuf2, hst2]
          simp [hreg]
        · intro p hp
          simp only [List.map_cons, List.mem_cons]
          exact Or.inr (by simpa using hkeys2 p hp)
      · refine ⟨(n, dv) :: suf2, ?_, ?_⟩
        · rw [hsuf2, hst2]
          simp [hreg]
        · intro p hp
          rcases List.mem_cons.mp hp with hp | hp
          · subst hp
            simp [← hn]
          · simp only [List.map_cons, List.mem_cons]
            exact Or.inr (by simpa using hkeys2 p hp)
    | error e => rw [phase1_cons_error hpf] at h; cases h
    | panicked p => rw [phase1_cons_panicked hpf] at h; cases h

theorem phase1_tag_nil_not_ok {env : GoStr → Option GoStr} {fields : List Field} :
    ∀ {st : P1State} {i : Nat} {f : Field}, fields.get? i = some f → f.flagTag = [] →
      ∀ st', phase1 env st fields ≠ .ok st' := by
  induction fields with
  | nil => intro st i f hf _ st'; cases hf
  | cons g rest ih =>
    intro st i f hf htag st' hcontra
    cases i with
    | zero =>
      simp only [List.get?] at hf
      cases hf
      have hpf : processField env st g = .panicked .indexOutOfRange := by
        have hpfa : parseFlagArgs g.flagTag = .panicked .indexOutOfRange := by
          rw [htag]
          rfl
        simp [processField, hpfa]
      rw [phase1_cons_panicked hpf] at hcontra
      cases hcontra
    | succ i0 =>
      cases hpf : processField env st g with
      | ok st2 =>
        rw [phase1_cons_ok hpf] at hcontra
        exact ih (by simpa using hf) htag st' hcontra
      | error e => rw [phase1_cons_error hpf] at hcontra; cases hcontra
      | panicked p => rw [phase1_cons_panicked hpf] at hcontra; cases hcontra

theorem ok_pair_inv {a1 : FlagReg} {b1 : List GoStr} {a2 : FlagReg} {b2 : List GoStr}
    (h : (Except.ok (a1, b1) : Except FlagErr (FlagReg × List GoStr)) = .ok (a2, b2)) :
    a2 = a1 ∧ b2 = b1 := by
  injection h with hp
  exact ⟨(congrArg Prod.fst hp).symm, (congrArg Prod.snd hp).symm⟩

theorem parseOne_ok {reg : FlagReg} {nameval : GoStr} {rest : List GoStr} {reg2 : FlagReg}
    {rest2 : List GoStr} (h : parseOne reg nameval rest = .ok (reg2, rest2)) :
    (∃ nv, reg2 = setFlag reg (splitEq nameval).1 nv) ∧
      (rest2 = rest ∨ ∃ v r3, rest = v :: r3 ∧ rest2 = r3) := by
  cases nameval with
  | nil => simp [parseOne] at h
  | cons c cs =>
    by_cases hc : c = '-' ∨ c = '='
    · simp [parseOne, hc] at h
    · rcases hse : splitEq (c :: cs) with ⟨name, valOpt⟩
      simp only [parseOne, if_neg hc, hse] at h
      simp only [hse]
      cases hlf : lookupFlag reg name with
      | none =>
        simp only [hlf] at h
        split_ifs at h
      | some fv =>
        simp only [hlf] at h
        by_cases hb : isBoolFlag fv = true
        · rw [if_pos hb] at h
          cases valOpt with
          | some v =>
            cases hfs : flagSetParse fv v with
            | some nv =>
              simp only [hfs] at h
              obtain ⟨h1, h2⟩ := ok_pair_inv h
              exact ⟨⟨nv, h1⟩, Or.inl h2⟩
            | none =>
              simp only [hfs] at h
              cases h
          | none =>
            simp only at h
            obtain ⟨h1, h2⟩ := ok_pair_inv h
            exact ⟨⟨.vbool true, h1⟩, Or.inl h2⟩
        · rw [if_neg hb] at h
          cases valOpt with
          | some v =>
            cases hfs : flagSetParse fv v with
            | some nv =>
              simp only [hfs] at h
              obtain ⟨h1, h2⟩ := ok_pair_inv h
              exact ⟨⟨nv, h1⟩, Or.inl h2⟩
            | none =>
              simp only [hfs] at h
              cases h
          | none =>
            cases rest with
            | nil => simp only at h; cases h
            | cons v r3 =>
              simp only at h
              cases hfs : flagSetParse fv v with
              | some nv =>
                simp only [hfs] at h
                obtain ⟨h1, h2⟩ := ok_pair_inv h
                exact ⟨⟨nv, h1⟩, Or.inr ⟨v, r3, rfl, h2⟩⟩
              | none =>
                simp only [hfs] at h
                cases h

theorem parseArgsLoop_untouched :
    ∀ (fuel : Nat) (reg : FlagReg) (args : List GoStr) (reg' : FlagReg),
      parseArgsLoop fuel reg args = .ok reg' →
      ∀ k, (∀ a ∈ args, argNameOf a ≠ some k) → lookupFlag reg' k = lookupFlag reg k := by
  intro fuel
  induction fuel with
  | zero =>
    intro reg args reg' h k _
    cases h
    rfl
  | succ fuel ih =>
    intro reg args reg' h k hk
    rcases args with _ | ⟨a, rest⟩
    · cases h
      rfl
    · rcases a with _ | ⟨c1, _ | ⟨c2, srest⟩⟩
      · cases h
        rfl
      · cases h
        rfl
      · simp only [parseArgsLoop] at h
        by_cases h1 : c1 ≠ '-'
        · rw [if_pos h1] at h
          cases h
          rfl
        · rw [if_neg h1] at h
          have hc1 : c1 = '-' := by
            by_contra hne
            exact h1 hne
          by_cases h2 : c2 = '-'
          · rw [if_pos h2] at h
            by_cases h3 : srest = []
            · rw [if_pos h3] at h
              cases h
              rfl
            · rw [if_neg h3] at h
              cases hpo : parseOne reg srest rest with
              | error e =>
                simp only [hpo] at h
                cases h
              | ok pr =>
                obtain ⟨reg2, rest2⟩ := pr
                simp only [hpo] at h
                obtain ⟨⟨nv, hreg2⟩, hrest2⟩ := parseOne_ok hpo
                have hname : (splitEq srest).1 ≠ k := by
                  have := hk (c1 :: c2 :: srest) (by simp)
                  rw [argNameOf] at this
                  rw [if_neg h1, if_pos h2, if_neg h3] at this
                  intro hcontra
                  exact this (by rw [hcontra])
                have hmem : ∀ a ∈ rest2, argNameOf a ≠ some k := by
                  intro a ha
                  rcases hrest2 with rfl | ⟨v, r3, rfl, rfl⟩
                  · exact hk a (by simp [ha])
                  · exact hk a (by simp [List.mem_cons.mpr (Or.inr ha)])
                rw [ih reg2 rest2 reg' h k hmem, hreg2,
                  lookupFlag_setFlag_ne reg _ nv k hname]
          · rw [if_neg h2] at h
            cases hpo : parseOne reg (c2 :: srest) rest with
            | error e =>
              simp only [hpo] at h
              cases h
            | ok pr =>
              obtain ⟨reg2, rest2⟩ := pr
              simp only [hpo] at h
              obtain ⟨⟨nv, hreg2⟩, hrest2⟩ := parseOne_ok hpo
              have hname : (splitEq (c2 :: srest)).1 ≠ k := by
                have := hk (c1 :: c2 :: srest) (by simp)
                rw [argNameOf] at this
                rw [if_neg h1, if_neg h2] at this
                intro hcontra
                exact this (by rw [hcontra])
              have hmem : ∀ a ∈ rest2, argNameOf a ≠ some k := by
                intro a ha
                rcases hrest2 with rfl | ⟨v, r3, rfl, rfl⟩
                · exact hk a (by simp [ha])
                · exact hk a (by simp [List.mem_cons.mpr (Or.inr ha)])
              rw [ih reg2 rest2 reg' h k hmem, hreg2,
                lookupFlag_setFlag_ne reg _ nv k hname]

theorem flagParse_ok {reg : FlagReg} {args : List GoStr} {reg2 : FlagReg}
    (h : flagParse reg args = .ok reg2) :
    parseArgsLoop (args.length + 1) reg args = .ok reg2 := by
  unfold flagParse at h
  cases hl : parseArgsLoop (args.length + 1) reg args with
  | ok r =>
    simp only [hl] at h
    injection h with h2
    subst h2
    rfl
  | error e =>
    simp only [hl] at h
    cases h

/-! ## ParseConfig inversion -/

theorem ParseConfig_ok_iff {priEnv : Bool} {env : GoStr → Option GoStr} {args : List GoStr}
    {reg0 : FlagReg} {fields : List Field} {y : List Field × FlagReg} :
    ParseConfig priEnv env args reg0 fields = .ok y ↔
      parseConfigBody priEnv env args reg0 fields = .ok y := by
  unfold ParseConfig
  cases parseConfigBody priEnv env args reg0 fields <;> simp

theorem parseConfigBody_ok {priEnv : Bool} {env : GoStr → Option GoStr} {args : List GoStr}
    {reg0 : FlagReg} {fields out : List Field} {regP' : FlagReg}
    (h : parseConfigBody priEnv env args reg0 fields = .ok (out, regP')) :
    ∃ st, phase1 env ⟨[], [], reg0⟩ fields = .ok st ∧
      flagParse st.reg args = .ok regP' ∧
      resolveLoop priEnv regP' st.flagVals st.fields = .ok out := by
  unfold parseConfigBody at h
  cases hp1 : phase1 env ⟨[], [], reg0⟩ fields with
  | error e => simp only [hp1] at h; cases h
  | panicked p => simp only [hp1] at h; cases h
  | ok st =>
    simp only [hp1] at h
    cases hfp : flagParse st.reg args with
    | error e => simp only [hfp] at h; cases h
    | panicked p => simp only [hfp] at h; cases h
    | ok regP =>
      simp only [hfp] at h
      cases hrl : resolveLoop priEnv regP st.flagVals st.fields with
      | error e => simp only [hrl] at h; cases h
      | panicked p => simp only [hrl] at h; cases h
      | ok fields2 =>
        simp only [hrl] at h
        injection h with hp
        have h1 : fields2 = out := congrArg Prod.fst hp
        have h2 : regP = regP' := congrArg Prod.snd hp
        refine ⟨st, rfl, ?_, ?_⟩
        · rw [hfp, h2]
        · rw [← h2, hrl, h1]

/-- C1: the claim says a boolean field given environment value `"notabool"`
makes `ParseConfig` return a non-nil `ConversionError` and not silently
default.  The code drops `setValue`'s error (line 60 calls it without
checking the result), so the run returns a nil error (`ok`) and the field is
filled from the flag default `false`: the value does not convert
(`parseBool` fails) yet the whole pass succeeds. -/
theorem c1_conversion_error_dropped :
    parseBool (gs "notabool") = none ∧
    ParseConfig true (envOf [(gs "DEBUG", gs "notabool")]) [] [] [debugField] =
      .ok ([debugField], [(gs "debug", .vbool false)]) := by
  constructor
  · rfl
  · decide

/-- C3: the claim says the descriptor parser validates the part count and
fails with a `MalformedBindingError`.  The code instead indexes
`parts[0..2]` unchecked: on the README's own `flag:"port"` tag the split has
one part, `parseFlagArgs` panics with an out-of-range index, and
`ParseConfig` surfaces the recovered panic — no validation error exists. -/
theorem c3_out_of_range_not_validation :
    parseFlagArgs (gs "port") = .panicked .indexOutOfRange ∧
    ParseConfig true (envOf []) [] [] [⟨gs "PORT", gs "port", .vint 0⟩] =
      .error (.recovered .indexOutOfRange) := by
  constructor
  · rfl
  · decide

/-- C10: for every record, environment, argument list and prior registry
state, `ParseConfig` returns normally: the deferred `recover` converts every
panic of the body (descriptor index panics, duplicate-registration panics,
`PanicOnError` aborts) into a returned error, so no panic escapes to the
caller. -/
theorem c10_no_panic_escapes (priEnv : Bool) (env : GoStr → Option GoStr) (args : List GoStr)
    (reg0 : FlagReg) (fields : List Field) :
    (ParseConfig priEnv env args reg0 fields).isPanic = false := by
  unfold ParseConfig
  cases parseConfigBody priEnv env args reg0 fields <;> rfl

/-- C6: for every argument list on which the flag scanner fails (malformed
flag syntax or an unknown flag), once the field loop has succeeded,
`ParseConfig` returns the failure as a normal `FlagParseError`-kind error:
the `PanicOnError` panic of `flag.Parse` is recovered, the process is not
terminated. -/
theorem c6_flag_parse_error_returned (priEnv : Bool) (env : GoStr → Option GoStr)
    (args : List GoStr) (reg0 : FlagReg) (fields : List Field) (st : P1State) (e : FlagErr)
    (hphase : phase1 env ⟨[], [], reg0⟩ fields = .ok st)
    (herr : parseArgsLoop (args.length + 1) st.reg args = .error e) :
    ParseConfig priEnv env args reg0 fields = .error (.recovered (.flagParseFail e)) := by
  have hfp : flagParse st.reg args = .panicked (.flagParseFail e) := by
    unfold flagParse
    rw [herr]
  unfold ParseConfig parseConfigBody
  simp only [hphase, hfp]

/-- C6 witness: an unknown flag `-nosuch` on the test-suite record. -/
theorem c6_witness :
    ParseConfig true (envOf []) [gs "-nosuch"] [] [hostField] =
      .error (.recovered (.flagParseFail (.unknownFlag (gs "nosuch")))) :=
  c6_flag_parse_error_returned true (envOf []) [gs "-nosuch"] [] [hostField]
    ⟨[hostField], [(gs "host", true)], [(gs "host", .vstr (gs "localhost"))]⟩
    (.unknownFlag (gs "nosuch")) (by decide) (by rfl)

/-- C2 counterexample: `PrioritiseEnv = true`, environment `DEBUG=false`
(present, and parsing successfully to `false` — the boolean zero value),
flag `-debug=true` supplied: the final field value is `true`, the flag's
value.  Both sources were supplied and the environment value did not win,
so the claim's universal "environment wins" part is false. -/
theorem c2_counterexample :
    setValue (GoValue.vbool false) (gs "false") = some (.vbool false) ∧
    ParseConfig true (envOf [(gs "DEBUG", gs "false")]) [gs "-debug=true"] [] [debugField] =
      .ok ([⟨gs "DEBUG", gs "debug;false;Enable debug logs", .vbool true⟩],
        [(gs "debug", .vbool true)]) ∧
    GoValue.vbool true ≠ GoValue.vbool false := by
  refine ⟨rfl, ?_, by decide⟩
  decide

/-- C2 (amended): with `PrioritiseEnv = true` the resolver overwrites a
field with the flag-derived value only when the field is currently at its
type's zero value; consequently, whenever the supplied environment value
parses to a non-zero value, it survives resolution unchanged and any flag
value for that field is ignored.  (If the environment value parses to the
zero value itself, the flag value overwrites it — the counterexample.) -/
theorem c2_env_nonzero_wins (env : GoStr → Option GoStr) (args : List GoStr)
    (fields : List Field) (i : Nat) (f : Field) (s : GoStr) (v : GoValue)
    (out : List Field) (regP : FlagReg)
    (hf : fields.get? i = some f)
    (henv : env f.envTag = some s)
    (hset : setValue f.value s = some v)
    (hnz : v.isZero = false)
    (hok : ParseConfig true env args [] fields = .ok (out, regP)) :
    out.get? i = some { f with value := v } := by
  obtain ⟨st, hp1, hfp, hrl⟩ := parseConfigBody_ok (ParseConfig_ok_iff.mp hok)
  have hfields := phase1_ok_fields hp1
  have hsti : st.fields.get? i = some (envApplied env f) := by
    rw [hfields]
    simp only [List.nil_append, List.get?_map, hf, Option.map_some']
  have henvf : envApplied env f = { f with value := v } := by
    unfold envApplied
    rw [henv]
    simp [hset]
  rw [henvf] at hsti
  exact resolveLoop_preserve_nonzero hrl hsti (by simpa using hnz)

/-- C2 witness: environment `DEBUG=true` (non-zero) and flag `-debug=false`
— the final field keeps the environment value `true`. -/
theorem c2_witness :
    ([⟨gs "DEBUG", gs "debug;false;Enable debug logs", GoValue.vbool true⟩] : List Field).get? 0 =
      some { debugField with value := GoValue.vbool true } :=
  c2_env_nonzero_wins (envOf [(gs "DEBUG", gs "true")]) [gs "-debug=false"] [debugField] 0
    debugField (gs "true") (.vbool true)
    [⟨gs "DEBUG", gs "debug;false;Enable debug logs", .vbool true⟩]
    [(gs "debug", .vbool false)]
    (by decide) (by decide) (by decide) (by decide) (by decide)

/-- C4 counterexample: an `int` field with environment value `"0"` (present
and converting successfully to `0`, the integer zero value), flag not
supplied, `PrioritiseEnv = true`: the resolved record holds the flag default
`8080`, not the environment's `0` — the value is not read back unchanged. -/
theorem c4_counterexample :
    setValue (GoValue.vint 0) (gs "0") = some (.vint 0) ∧
    ParseConfig true (envOf [(gs "PORT", gs "0")]) [] [] [portField] =
      .ok ([⟨gs "PORT", gs "port;8080;Server port", .vint 8080⟩], [(gs "port", .vint 8080)]) ∧
    GoValue.vint 8080 ≠ GoValue.vint 0 := by
  refine ⟨rfl, ?_, by decide⟩
  decide

/-- C4 (amended): for every supported scalar type, an environment value that
parses to a **non-zero** value of the field's type is read back from the
resolved record unchanged after `ParseConfig`, when `PrioritiseEnv` is true
and the corresponding flag is not supplied on the command line.  (An
environment value equal to the zero value is replaced by the flag default —
the counterexample.) -/
theorem c4_env_roundtrip (env : GoStr → Option GoStr) (args : List GoStr)
    (fields : List Field) (i : Nat) (f : Field) (s : GoStr) (v : GoValue)
    (out : List Field) (regP : FlagReg)
    (hf : fields.get? i = some f)
    (hsup : f.value.kind ≠ .kunsup)
    (henv : env f.envTag = some s)
    (hset : setValue f.value s = some v)
    (hnz : v.isZero = false)
    (hargs : ∀ a ∈ args, argNameOf a ≠ some (flagTagHead f))
    (hok : ParseConfig true env args [] fields = .ok (out, regP)) :
    out.get? i = some { f with value := v } := by
  obtain ⟨st, hp1, hfp, hrl⟩ := parseConfigBody_ok (ParseConfig_ok_iff.mp hok)
  have hfields := phase1_ok_fields hp1
  have hsti : st.fields.get? i = some (envApplied env f) := by
    rw [hfields]
    simp only [List.nil_append, List.get?_map, hf, Option.map_some']
  have henvf : envApplied env f = { f with value := v } := by
    unfold envApplied
    rw [henv]
    simp [hset]
  rw [henvf] at hsti
  exact resolveLoop_preserve_nonzero hrl hsti (by simpa using hnz)

/-- C4 witness: a duration field with environment `TIMEOUT=5s` resolves to
exactly 5 seconds (5000000000 ns), not the flag default `10s`. -/
theorem c4_witness :
    ([⟨gs "TIMEOUT", gs "timeout;10s;Connection timeout", GoValue.vdur 5000000000⟩] :
      List Field).get? 0 = some { timeoutField with value := GoValue.vdur 5000000000 } :=
  c4_env_roundtrip (envOf [(gs "TIMEOUT", gs "5s")]) [] [timeoutField] 0 timeoutField
    (gs "5s") (.vdur 5000000000)
    [⟨gs "TIMEOUT", gs "timeout;10s;Connection timeout", .vdur 5000000000⟩]
    [(gs "timeout", .vdur 10000000000)]
    (by decide) (by decide) (by decide) (by decide) (by decide) (by decide) (by decide)

/-- C7 counterexample: a record whose only field has an unsupported kind (a
nil slice) and a well-formed three-part flag descriptor is *rejected*:
`ParseConfig` returns the `unsupported flag value type` error from the
defensive `default` arm of `setFieldValueByFlagValue` — the branch the claim
calls unreachable, on a record the claim says is not rejected. -/
theorem c7_counterexample :
    ParseConfig true (envOf []) [] [] [sliceField] = .error .unsupportedFlagValue := by
  decide

/-- C7 (amended): a field of unsupported kind is indeed skipped by the
environment applier and yields a `nil` flag (no registration), but it is not
left unbound without rejection: the `nil` `flagValues` entry reaches the
switch's defensive `default` arm in `setFieldValueByFlagValue`, so on any
record holding such a field (with pairwise-distinct declared flag names —
the spec's record invariant), for any arguments and any initial registry,
`ParseConfig` returns an error whenever the resolution write branch is taken
for that field: always when `PrioritiseEnv` is false, and whenever the field
is at its zero value after the first-pass environment write.  The
`UnsupportedValueTypeError` branch is reachable, not unreachable. -/
theorem c7_unsupported_rejected (priEnv : Bool) (env : GoStr → Option GoStr)
    (args : List GoStr) (reg0 : FlagReg) (fields : List Field) (i : Nat) (f : Field)
    (hf : fields.get? i = some f)
    (hdist : List.Pairwise (· ≠ ·) (fields.map flagTagHead))
    (hunsup : f.value.kind = .kunsup)
    (hgate : priEnv = false ∨ (envApplied env f).value.isZero = true) :
    ∃ e, ParseConfig priEnv env args reg0 fields = .error e := by
  cases hb : parseConfigBody priEnv env args reg0 fields with
  | error e =>
    refine ⟨e, ?_⟩
    unfold ParseConfig
    simp only [hb]
  | panicked p =>
    refine ⟨.recovered p, ?_⟩
    unfold ParseConfig
    simp only [hb]
  | ok y =>
    exfalso
    obtain ⟨out, regP⟩ := y
    obtain ⟨st, hp1, hfp, hrl⟩ := parseConfigBody_ok hb
    -- decompose the record at the focused field
    obtain ⟨hdec, hlen⟩ := list_decomp hf
    have hstfields := phase1_ok_fields hp1
    rw [List.nil_append] at hstfields
    -- split the head-name list and the pairwise hypothesis
    have hmapsplit : fields.map flagTagHead =
        (fields.take i).map flagTagHead ++
          flagTagHead f :: (fields.drop (i + 1)).map flagTagHead := by
      conv_lhs => rw [hdec]
      simp
    rw [hmapsplit] at hdist
    have hpairs := List.pairwise_append.mp hdist
    have hfpost := List.pairwise_cons.mp hpairs.2.1
    have hprene : ∀ a ∈ (fields.take i).map flagTagHead, a ≠ flagTagHead f :=
      fun a ha => hpairs.2.2 a ha (flagTagHead f) (by simp)
    -- run phase 1 over the decomposition
    rw [hdec, phase1_append] at hp1
    cases hpre : phase1 env ⟨[], [], reg0⟩ (fields.take i) with
    | error e => rw [hpre] at hp1; cases hp1
    | panicked p => rw [hpre] at hp1; cases hp1
    | ok st1 =>
      rw [hpre] at hp1
      simp only at hp1
      cases hpf : processField env st1 f with
      | error e => rw [phase1_cons_error hpf] at hp1; cases hp1
      | panicked p => rw [phase1_cons_panicked hpf] at hp1; cases hp1
      | ok st2 =>
        rw [phase1_cons_ok hpf] at hp1
        -- invert the focused field's processing: a nil flag, no registration
        obtain ⟨n, d, u, reg2, ptr, hdesc, hgf, hst2⟩ := processField_ok hpf
        have hn : flagTagHead f = n := parseFlagArgs_ok_head hdesc
        have hunsup2 : (envApplied env f).value.kind = .kunsup := by
          rw [envApplied_kind]
          exact hunsup
        rcases getFlagSetValue_ok hgf with ⟨_, _, hptr⟩ | ⟨hns, _⟩
        · subst hptr
          -- flagVals of st1: keys among the earlier fields' heads
          obtain ⟨sufA, hsufA, hkeysA⟩ := phase1_flagVals_suffix hpre (by simp) hpairs.1
          rw [List.nil_append] at hsufA
          have hkeysA' : ∀ p ∈ st1.flagVals, p.1 ≠ flagTagHead f := by
            intro p hp
            exact hprene p.1 (hkeysA p (hsufA ▸ hp))
          have hst2fv : st2.flagVals = st1.flagVals ++ [(n, false)] := by
            rw [hst2]
            exact mapSet_fresh false (by intro p hp; rw [← hn]; exact hkeysA' p hp)
          -- flagVals of st: the nil focus entry followed by later fields' entries
          have hfresh2 : ∀ g ∈ fields.drop (i + 1), ∀ p ∈ st2.flagVals,
              p.1 ≠ flagTagHead g := by
            intro g hg p hp
            rw [hst2fv] at hp
            rcases List.mem_append.mp hp with hp | hp
            · have ha := hkeysA p (hsufA ▸ hp)
              exact hpairs.2.2 p.1 ha (flagTagHead g)
                (List.mem_cons.mpr (Or.inr (List.mem_map_of_mem _ hg)))
            · have hpn : p = (n, false) := by simpa using hp
              subst hpn
              have := hfpost.1 (flagTagHead g) (List.mem_map_of_mem _ hg)
              simpa [← hn] using this
          obtain ⟨sufB, hsufB, hkeysB⟩ := phase1_flagVals_suffix hp1 hfresh2 hfpost.2
          -- the focused field's index, in the mutated record
          have hgetst : st.fields.get? i = some (envApplied env f) := by
            rw [hstfields]
            simp only [List.get?_map, hf, Option.map_some']
          have htagf' : (envApplied env f).flagTag ≠ [] := by
            rw [envApplied_flagTag]
            exact parseFlagArgs_ok_tag_ne_nil hdesc
          have hheadeq : flagTagHead (envApplied env f) = flagTagHead f := by
            unfold flagTagHead
            rw [envApplied_flagTag]
          have hidxst : getFieldIndexByFlagName st.fields
              (flagTagHead (envApplied env f)) = some i := by
            apply getFieldIndexByFlagName_first hgetst htagf'
            intro j g hj hstj
            rw [hstfields] at hstj
            simp only [List.get?_map] at hstj
            rcases Option.map_eq_some'.mp hstj with ⟨g0, hg0, rfl⟩
            have hjpre : (fields.take i).get? j = some g0 := by
              rw [hdec] at hg0
              rwa [List.get?_append (by omega : j < (fields.take i).length)] at hg0
            have hg0mem : g0 ∈ fields.take i := List.get?_mem hjpre
            have := hprene (flagTagHead g0) (List.mem_map_of_mem _ hg0mem)
            intro hcontra
            apply this
            rw [← hheadeq, ← hcontra.2]
            unfold flagTagHead
            rw [envApplied_flagTag]
          -- resolution: split at the nil focus entry
          rw [hsufB, hst2fv, List.append_assoc, resolveLoop_append] at hrl
          cases hA : resolveLoop priEnv regP st1.flagVals st.fields with
          | error e => rw [hA] at hrl; cases hrl
          | panicked p => rw [hA] at hrl; cases hrl
          | ok fields1 =>
            rw [hA] at hrl
            simp only at hrl
            have hkeysA2 : ∀ p ∈ st1.flagVals, p.1 ≠ flagTagHead (envApplied env f) := by
              intro p hp
              rw [hheadeq]
              exact hkeysA' p hp
            have hget1 : fields1.get? i = some (envApplied env f) :=
              resolveLoop_preserve_keys hA hgetst hkeysA2
            have hidx1 : getFieldIndexByFlagName fields1
                (flagTagHead (envApplied env f)) = some i := by
              rw [getFieldIndexByFlagName_congr (resolveLoop_tags hA)
                (flagTagHead (envApplied env f))]
              exact hidxst
            rw [hheadeq, hn] at hidx1
            have hcond : ¬ priEnv = true ∨ (envApplied env f).value.isZero = true := by
              rcases hgate with hg | hg
              · exact Or.inl (by simp [hg])
              · exact Or.inr hg
            rw [List.cons_append] at hrl
            rw [resolveLoop_cons_write hidx1 hget1 hcond] at hrl
            rw [if_neg (by simp)] at hrl
            have hsfv : setFieldValueByFlagValue (envApplied env f).value none =
                .error .unsupportedFlagValue := rfl
            rw [hsfv] at hrl
            simp only at hrl
            cases hrl
        · exact hns hunsup2

/-- C7 witness: with `PrioritiseEnv = false`, a record whose unsupported
field starts at a non-zero value is still rejected — the case where the
flag path always overwrites regardless of the zero check. -/
theorem c7_witness :
    ∃ e, ParseConfig false (envOf []) [] []
      [⟨gs "XS", gs "xs;a;u", .vunsupported false⟩] = .error e :=
  c7_unsupported_rejected false (envOf []) [] []
    [⟨gs "XS", gs "xs;a;u", .vunsupported false⟩] 0
    ⟨gs "XS", gs "xs;a;u", .vunsupported false⟩
    (by decide) (by decide) (by decide) (Or.inl rfl)

/-- C8 counterexample: a two-field record whose second field carries no flag
descriptor: instead of excluding that field and succeeding, the whole
`ParseConfig` call fails with the recovered out-of-range index panic from
`parseFlagArgs` on the empty tag. -/
theorem c8_counterexample :
    ParseConfig true (envOf []) [] [] [hostField, untaggedField] =
      .error (.recovered .indexOutOfRange) := by
  decide

/-- C8 (amended): a field carrying no flag descriptor is not skipped: its
empty tag splits into a single part, the unchecked `parts[1]` access panics,
and the whole `ParseConfig` call returns an error — a record containing such
a field never resolves successfully. -/
theorem c8_missing_descriptor_fails (priEnv : Bool) (env : GoStr → Option GoStr)
    (args : List GoStr) (reg0 : FlagReg) (fields : List Field) (i : Nat) (f : Field)
    (hf : fields.get? i = some f) (htag : f.flagTag = []) :
    ∃ e, ParseConfig priEnv env args reg0 fields = .error e := by
  cases hb : parseConfigBody priEnv env args reg0 fields with
  | ok y =>
    obtain ⟨out1, regP1⟩ := y
    obtain ⟨st, hp1, _, _⟩ := parseConfigBody_ok hb
    exact absurd hp1 (phase1_tag_nil_not_ok hf htag st)
  | error e =>
    refine ⟨e, ?_⟩
    unfold ParseConfig
    simp only [hb]
  | panicked p =>
    refine ⟨.recovered p, ?_⟩
    unfold ParseConfig
    simp only [hb]

/-- C8 witness: the test-suite record extended with a descriptor-less field
fails as a whole. -/
theorem c8_witness :
    ∃ e, ParseConfig true (envOf []) [] [] [hostField, untaggedField] = .error e :=
  c8_missing_descriptor_fails true (envOf []) [] [] [hostField, untaggedField] 1
    untaggedField (by decide) (by decide)

/-- C9 counterexample: a first `ParseConfig` call succeeds and leaves `host`
registered; an identical second call in the same process — the registry it
returned passed back in, exactly as `flag.CommandLine` persists — does not
succeed: it returns the recovered `flag redefined` panic as an error. -/
theorem c9_counterexample :
    ParseConfig true (envOf []) [] [] [hostField] =
      .ok ([⟨gs "HOST", gs "host;localhost;Host address", .vstr (gs "localhost")⟩],
        [(gs "host", .vstr (gs "localhost"))]) ∧
    ParseConfig true (envOf []) [] [(gs "host", .vstr (gs "localhost"))] [hostField] =
      .error (.recovered (.flagRedefined (gs "host"))) := by
  constructor
  · decide
  · decide

/-- C9 (amended): `flag.CommandLine.Init` resets only the flag set's name
and error-handling mode, never the registered flags, so the registry
persists across `ParseConfig` calls; a call whose first field declares a
flag name already present in the registry fails with the recovered
`flag redefined` panic instead of succeeding. -/
theorem c9_registry_persists (priEnv : Bool) (env : GoStr → Option GoStr) (args : List GoStr)
    (reg0 : FlagReg) (f : Field) (rest : List Field) (n d u : GoStr) (dv : GoValue)
    (hdesc : parseFlagArgs f.flagTag = .ok (n, d, u))
    (hdv : defaultParsed (envApplied env f).value d = some dv)
    (hdup : lookupFlag reg0 n ≠ none) :
    ParseConfig priEnv env args reg0 (f :: rest) = .error (.recovered (.flagRedefined n)) := by
  have hsup : (envApplied env f).value.kind ≠ .kunsup := by
    intro hcontra
    obtain ⟨z, hz⟩ := (kind_unsup_iff _).mp hcontra
    rw [hz] at hdv
    cases hdv
  have hreg : registerFlag reg0 n dv = .panicked (.flagRedefined n) := by
    unfold registerFlag
    cases hl : lookupFlag reg0 n with
    | none => exact absurd hl hdup
    | some w => rfl
  have hgf : getFlagSetValue (envApplied env f).value n d reg0 =
      .panicked (.flagRedefined n) := by
    rw [getFlagSetValue_not_unsup n d reg0 hsup]
    simp only [hdv, hreg]
  have hpf : processField env ⟨[], [], reg0⟩ f = .panicked (.flagRedefined n) := by
    simp [processField, hdesc, hgf]
  have hp1 : phase1 env ⟨[], [], reg0⟩ (f :: rest) = .panicked (.flagRedefined n) :=
    phase1_cons_panicked hpf rest
  unfold ParseConfig parseConfigBody
  simp only [hp1]

theorem envApplied_none {env : GoStr → Option GoStr} {f : Field} (h : env f.envTag = none) :
    envApplied env f = f := by
  unfold envApplied
  rw [h]

theorem lookupFlag_none_of_keys {reg : FlagReg} {k : GoStr} (h : ∀ p ∈ reg, p.1 ≠ k) :
    lookupFlag reg k = none := by
  induction reg with
  | nil => rfl
  | cons p rest ih =>
    obtain ⟨n, v⟩ := p
    have hn : n ≠ k := h (n, v) (by simp)
    simp only [lookupFlag, if_neg hn]
    exact ih fun q hq => h q (by simp [hq])

/-- C5: for every field for which neither an environment value is present
nor an explicit flag value is supplied on the command line, a successful
`ParseConfig` (from a fresh process registry, on a record whose declared
flag names are distinct — the spec's stated record invariant — and whose
field starts at its zero value) leaves the field equal to the default value
from its binding descriptor parsed into the field's scalar type. -/
theorem c5_default_applied (priEnv : Bool) (env : GoStr → Option GoStr) (args : List GoStr)
    (fields : List Field) (i : Nat) (f : Field) (n d u : GoStr) (dv : GoValue)
    (out : List Field) (regP : FlagReg)
    (hf : fields.get? i = some f)
    (hdist : List.Pairwise (· ≠ ·) (fields.map flagTagHead))
    (henv : env f.envTag = none)
    (hzero : f.value.isZero = true)
    (hargs : ∀ a ∈ args, argNameOf a ≠ some (flagTagHead f))
    (hdesc : parseFlagArgs f.flagTag = .ok (n, d, u))
    (hdv : defaultParsed f.value d = some dv)
    (hok : ParseConfig priEnv env args [] fields = .ok (out, regP)) :
    out.get? i = some { f with value := dv } := by
  obtain ⟨st, hp1, hfp, hrl⟩ := parseConfigBody_ok (ParseConfig_ok_iff.mp hok)
  have hn : flagTagHead f = n := parseFlagArgs_ok_head hdesc
  -- decompose the record at the focused field
  obtain ⟨hdec, hlen⟩ := list_decomp hf
  have hstfields := phase1_ok_fields hp1
  rw [List.nil_append] at hstfields
  -- split the head-name list and the pairwise hypothesis
  have hmapsplit : fields.map flagTagHead =
      (fields.take i).map flagTagHead ++
        flagTagHead f :: (fields.drop (i + 1)).map flagTagHead := by
    conv_lhs => rw [hdec]
    simp
  rw [hmapsplit] at hdist
  have hpairs := List.pairwise_append.mp hdist
  have hfpost := List.pairwise_cons.mp hpairs.2.1
  have hprene : ∀ a ∈ (fields.take i).map flagTagHead, a ≠ flagTagHead f :=
    fun a ha => hpairs.2.2 a ha (flagTagHead f) (by simp)
  -- run phase 1 over the decomposition
  rw [hdec, phase1_append] at hp1
  cases hpre : phase1 env ⟨[], [], []⟩ (fields.take i) with
  | error e => rw [hpre] at hp1; cases hp1
  | panicked p => rw [hpre] at hp1; cases hp1
  | ok st1 =>
    rw [hpre] at hp1
    simp only at hp1
    cases hpf : processField env st1 f with
    | error e => rw [phase1_cons_error hpf] at hp1; cases hp1
    | panicked p => rw [phase1_cons_panicked hpf] at hp1; cases hp1
    | ok st2 =>
      rw [phase1_cons_ok hpf] at hp1
      -- invert the focused field's processing
      obtain ⟨n2, d2, u2, reg2, ptr, hdesc2, hgf, hst2⟩ := processField_ok hpf
      rw [hdesc] at hdesc2
      injection hdesc2 with htrip
      have htrip2 := htrip
      rw [Prod.mk.injEq, Prod.mk.injEq] at htrip2
      obtain ⟨h1, h2, h3⟩ := htrip2
      subst h1
      subst h2
      subst h3
      rw [envApplied_none henv] at hgf hst2
      rcases getFlagSetValue_ok hgf with ⟨hunsup, _, _⟩ | ⟨_, dv2, hdv2, hlook1, hreg2, hptr⟩
      · obtain ⟨z, hz⟩ := (kind_unsup_iff _).mp hunsup
        rw [hz] at hdv
        cases hdv
      · rw [hdv] at hdv2
        injection hdv2 with hdv2
        subst hdv2
        subst hptr
        -- flagVals of st1: keys among the earlier fields' heads
        obtain ⟨sufA, hsufA, hkeysA⟩ := phase1_flagVals_suffix hpre (by simp) hpairs.1
        rw [List.nil_append] at hsufA
        have hkeysA' : ∀ p ∈ st1.flagVals, p.1 ≠ flagTagHead f := by
          intro p hp
          exact hprene p.1 (hkeysA p (hsufA ▸ hp))
        have hst2fv : st2.flagVals = st1.flagVals ++ [(n, true)] := by
          rw [hst2]
          exact mapSet_fresh true (by intro p hp; rw [← hn]; exact hkeysA' p hp)
        -- flagVals of st: the focus entry followed by later fields' entries
        have hfresh2 : ∀ g ∈ fields.drop (i + 1), ∀ p ∈ st2.flagVals,
            p.1 ≠ flagTagHead g := by
          intro g hg p hp
          rw [hst2fv] at hp
          rcases List.mem_append.mp hp with hp | hp
          · have ha := hkeysA p (hsufA ▸ hp)
            exact hpairs.2.2 p.1 ha (flagTagHead g)
              (List.mem_cons.mpr (Or.inr (List.mem_map_of_mem _ hg)))
          · have hpn : p = (n, true) := by simpa using hp
            subst hpn
            have := hfpost.1 (flagTagHead g) (List.mem_map_of_mem _ hg)
            simpa [← hn] using this
        obtain ⟨sufB, hsufB, hkeysB⟩ := phase1_flagVals_suffix hp1 hfresh2 hfpost.2
        have hkeysB' : ∀ p ∈ sufB, p.1 ≠ flagTagHead f := by
          intro p hp
          have := hkeysB p hp
          intro hcontra
          rw [hcontra] at this
          exact hfpost.1 _ this rfl
        -- registry: the focused flag holds its parsed default after phase 1
        obtain ⟨rsufA, hrsufA, hrkeysA⟩ := phase1_reg_suffix hpre
        rw [List.nil_append] at hrsufA
        obtain ⟨rsufB, hrsufB, hrkeysB⟩ := phase1_reg_suffix hp1
        have hlookst : lookupFlag st.reg n = some dv := by
          rw [hrsufB, hst2, hreg2]
          have h1 : lookupFlag st1.reg n = none := by
            apply lookupFlag_none_of_keys
            intro p hp
            rw [← hn]
            exact hprene p.1 (hrkeysA p (hrsufA ▸ hp))
          rw [List.append_assoc, lookupFlag_append, h1]
          simp [lookupFlag]
        -- the parse step leaves the focused flag untouched
        have hlookP : lookupFlag regP n = some dv := by
          rw [parseArgsLoop_untouched _ _ _ _ (flagParse_ok hfp) n
            (by rw [← hn]; exact hargs)]
          exact hlookst
        -- the focused field's index, in the mutated record
        have hgetst : st.fields.get? i = some f := by
          rw [hstfields]
          simp only [List.get?_map, hf, Option.map_some']
          rw [envApplied_none henv]
        have htagf : f.flagTag ≠ [] := parseFlagArgs_ok_tag_ne_nil hdesc
        have hidxst : getFieldIndexByFlagName st.fields (flagTagHead f) = some i := by
          apply getFieldIndexByFlagName_first hgetst htagf
          intro j g hj hstj
          rw [hstfields] at hstj
          simp only [List.get?_map] at hstj
          rcases Option.map_eq_some'.mp hstj with ⟨g0, hg0, rfl⟩
          have hjpre : (fields.take i).get? j = some g0 := by
            rw [hdec] at hg0
            rwa [List.get?_append (by omega : j < (fields.take i).length)] at hg0
          have hg0mem : g0 ∈ fields.take i := List.get?_mem hjpre
          have := hprene (flagTagHead g0) (List.mem_map_of_mem _ hg0mem)
          intro hcontra
          apply this
          rw [← hcontra.2]
          unfold flagTagHead
          rw [envApplied_flagTag]
        -- resolution: split at the focus entry
        rw [hsufB, hst2fv, List.append_assoc, resolveLoop_append] at hrl
        cases hA : resolveLoop priEnv regP st1.flagVals st.fields with
        | error e => rw [hA] at hrl; cases hrl
        | panicked p => rw [hA] at hrl; cases hrl
        | ok fields1 =>
          rw [hA] at hrl
          simp only at hrl
          have hget1 : fields1.get? i = some f :=
            resolveLoop_preserve_keys hA hgetst hkeysA'
          have hidx1 : getFieldIndexByFlagName fields1 (flagTagHead f) = some i := by
            rw [getFieldIndexByFlagName_congr (resolveLoop_tags hA) (flagTagHead f)]
            exact hidxst
          rw [hn] at hidx1
          rw [List.cons_append] at hrl
          rw [resolveLoop_cons_write hidx1 hget1 (Or.inr hzero)] at hrl
          rw [if_pos rfl, hlookP, setFieldValueByFlagValue_roundtrip hdv] at hrl
          simp only at hrl
          have hget2 : (fields1.set i { f with value := dv }).get? i =
              some { f with value := dv } :=
            get?_set_self fields1 i _ f hget1
          exact resolveLoop_preserve_keys hrl hget2 hkeysB'

/-- C5 witness: the test suite's `Timeout` field with no environment value
and no arguments resolves to the parsed default `10s` (10000000000 ns). -/
theorem c5_witness :
    ([⟨gs "TIMEOUT", gs "timeout;10s;Connection timeout", GoValue.vdur 10000000000⟩] :
      List Field).get? 0 = some { timeoutField with value := GoValue.vdur 10000000000 } :=
  c5_default_applied true (envOf []) [] [timeoutField] 0 timeoutField
    (gs "timeout") (gs "10s") (gs "Connection timeout") (.vdur 10000000000)
    [⟨gs "TIMEOUT", gs "timeout;10s;Connection timeout", .vdur 10000000000⟩]
    [(gs "timeout", .vdur 10000000000)]
    (by decide) (by decide) (by decide) (by decide) (by decide) (by decide) (by decide)
    (by decide)

/-- C9 witness: with `host` already registered, re-running on the test
record fails with the recovered `flag redefined` error. -/
theorem c9_witness :
    ParseConfig true (envOf []) [] [(gs "host", GoValue.vstr (gs "localhost"))] [hostField] =
      .error (.recovered (.flagRedefined (gs "host"))) :=
  c9_registry_persists true (envOf []) [] [(gs "host", .vstr (gs "localhost"))] hostField []
    (gs "host") (gs "localhost") (gs "Host address") (.vstr (gs "localhost"))
    (by decide) (by decide) (by decide)

end EnvFlag

